import Mathlib

/-!
Verification of the sandbox lifecycle manager of the demo-sql repository.

The development shallowly embeds `ContainerSandboxManager`
(backend/src/services/containerSandboxManager.ts) together with the
boundary validator `SQLExecutor.validateQuery`
(backend/src/services/sqlExecutor.ts, container-sandbox path).

Modelling conventions:
* JavaScript `Map<string, SandboxInstance>` is an insertion-ordered
  association list with unique keys (`lookupSb`, `setSb`, `removeSb`).
* `Date.now()` becomes an explicit `now : Nat` argument.
* Docker containers are abstracted to numeric handles: the manager state
  carries the backend's own listing `liveContainers` plus the allocators
  `nextContainer` / `nextPort`; launching a container pushes a fresh handle,
  removing a container erases it.
* The fallible readiness wait and schema/seed application inside
  `createSandbox` (the `try { waitForPostgresReady; seedPostgresDatabase }`
  block) are modelled by an oracle `BuildEnv`: `buildOk` tells whether the
  awaited block succeeds, `failMsg` is the error it throws when it fails.
  `generateSessionId()` is modelled by the oracle field `freshId`.
* Row cell values (`unknown` in the source, arriving from a JSON request
  body) are modelled as JSON scalar literals `JsLit`.
* `computeDataHash` is `JSON.stringify({ dbml, data })`, modelled character
  by character including the ECMA-404 string escaping that
  `JSON.stringify` performs.
-/

/-- A JSON scalar literal: the possible cell values of seed-data rows. -/
inductive JsLit where
  | null : JsLit
  | bool (b : Bool) : JsLit
  | num (i : Int) : JsLit
  | str (s : String) : JsLit
deriving DecidableEq, Repr

/-- One seed-data row: a JavaScript object, i.e. an insertion-ordered list
of fields. -/
abbrev Row := List (String × JsLit)

/-- The seed data of a request: `Record<string, Record<string, unknown>[]>`,
table name to list of rows. -/
abbrev SeedData := List (String × List Row)

/-- Decimal digit to character, as used by `Number.prototype.toString`. -/
def digitChar : Nat → Char
  | 0 => '0' | 1 => '1' | 2 => '2' | 3 => '3' | 4 => '4'
  | 5 => '5' | 6 => '6' | 7 => '7' | 8 => '8' | 9 => '9'
  | _ => '*'

/-- Lowercase hexadecimal digit, as used in `\u00XX` escapes emitted by
`JSON.stringify`. -/
def hexChar : Nat → Char
  | 0 => '0' | 1 => '1' | 2 => '2' | 3 => '3' | 4 => '4'
  | 5 => '5' | 6 => '6' | 7 => '7' | 8 => '8' | 9 => '9'
  | 10 => 'a' | 11 => 'b' | 12 => 'c' | 13 => 'd' | 14 => 'e' | 15 => 'f'
  | _ => '*'

/-- Test for a decimal digit character. -/
def isDigitC (c : Char) : Bool :=
  c = '0' ∨ c = '1' ∨ c = '2' ∨ c = '3' ∨ c = '4' ∨
  c = '5' ∨ c = '6' ∨ c = '7' ∨ c = '8' ∨ c = '9'

/-- Decimal digits of a natural number, most significant first:
the output of `Number.prototype.toString` on a nonnegative integer. -/
def natChars (n : Nat) : List Char :=
  if _h : n < 10 then [digitChar n]
  else natChars (n / 10) ++ [digitChar (n % 10)]
decreasing_by exact Nat.div_lt_self (by omega) (by omega)

/-- Serialization of an integer, mirroring `JSON.stringify` on an integral
JavaScript number. -/
def intChars (i : Int) : List Char :=
  if i < 0 then '-' :: natChars i.natAbs else natChars i.natAbs

/-- The escape of one character inside a JSON string, per ECMA-404 /
`JSON.stringify` (two-character escapes for the named controls, `\u00XX`
for the remaining control characters). -/
def escC (c : Char) : List Char :=
  if c = '"' then ['\\', '"']
  else if c = '\\' then ['\\', '\\']
  else if c = '\x08' then ['\\', 'b']
  else if c = '\x0c' then ['\\', 'f']
  else if c = '\n' then ['\\', 'n']
  else if c = '\r' then ['\\', 'r']
  else if c = '\t' then ['\\', 't']
  else if c.toNat < 32 then ['\\', 'u', '0', '0', hexChar (c.toNat / 16), hexChar (c.toNat % 16)]
  else [c]

/-- Escape a character list as the body of a JSON string. -/
def escS : List Char → List Char
  | [] => []
  | c :: cs => escC c ++ escS cs

/-- A JSON string literal: opening quote, escaped body, closing quote. -/
def quotedS (s : String) : List Char :=
  '"' :: escS s.data ++ ['"']

/-- Serialization of a JSON scalar literal. -/
def litChars : JsLit → List Char
  | .null => 'n' :: 'u' :: 'l' :: 'l' :: []
  | .bool true => 't' :: 'r' :: 'u' :: 'e' :: []
  | .bool false => 'f' :: 'a' :: 'l' :: 's' :: 'e' :: []
  | .num i => intChars i
  | .str s => quotedS s

/-- Comma-separated serialization of the elements of a JSON array/object. -/
def sepChars (f : α → List Char) : List α → List Char
  | [] => []
  | [a] => f a
  | a :: b :: rest => f a ++ ',' :: sepChars f (b :: rest)

/-- Serialization of one JSON object member `"key":value`. -/
def pairChars (fv : α → List Char) (p : String × α) : List Char :=
  quotedS p.1 ++ ':' :: fv p.2

/-- Serialization of a JSON object given a serializer for its values. -/
def objChars (fv : α → List Char) (l : List (String × α)) : List Char :=
  '{' :: sepChars (pairChars fv) l ++ ['}']

/-- Serialization of a JSON array given a serializer for its elements. -/
def arrChars (fe : α → List Char) (l : List α) : List Char :=
  '[' :: sepChars fe l ++ [']']

/-- Serialization of one seed-data row (a JSON object of scalars). -/
def rowChars : Row → List Char := objChars litChars

/-- Serialization of one table's row list (a JSON array of row objects). -/
def tableRowsChars : List Row → List Char := arrChars rowChars

/-- Serialization of the whole seed-data record. -/
def dataChars : SeedData → List Char := objChars tableRowsChars

/-- Characters of `JSON.stringify({ dbml, data })`: the two keys `dbml` and
`data` in declaration order, values serialized in place. -/
def topChars (dbml : String) (data : SeedData) : List Char :=
  '{' :: '"' :: 'd' :: 'b' :: 'm' :: 'l' :: '"' :: ':' ::
    (quotedS dbml ++
      ',' :: '"' :: 'd' :: 'a' :: 't' :: 'a' :: '"' :: ':' ::
        (dataChars data ++ ['}']))

/-- `ContainerSandboxManager.computeDataHash`: the drift fingerprint is the
serialization `JSON.stringify({ dbml, data })` itself. -/
def computeDataHash (dbml : String) (data : SeedData) : String :=
  String.mk (topChars dbml data)

/-! ## The manager's data model -/

/-- `SupportedEngine`: currently exactly `'postgres'`. -/
inductive SupportedEngine where
  | postgres : SupportedEngine
deriving DecidableEq, Repr

/-- `SandboxConfig` from the source, numeric fields in `Nat`. -/
structure SandboxConfig where
  image : String
  username : String
  password : String
  database : String
  ttlMs : Nat
  readinessTimeoutMs : Nat
  readinessRetryDelayMs : Nat
  cleanupIntervalMs : Nat
deriving DecidableEq, Repr

/-- The constructor defaults of `ContainerSandboxManager`. -/
def defaultConfig : SandboxConfig where
  image := "wodby/postgres:15"
  username := "sandbox"
  password := "sandbox"
  database := "sandbox"
  ttlMs := 60 * 60 * 1000
  readinessTimeoutMs := 60 * 1000
  readinessRetryDelayMs := 2000
  cleanupIntervalMs := 5 * 60 * 1000

/-- `SandboxRequest` from the source. -/
structure SandboxRequest where
  sessionId : Option String
  dbml : String
  data : SeedData
  engine : Option SupportedEngine
deriving DecidableEq, Repr

/-- `SandboxInstance` from the source. `containerId` is the opaque
container handle, `hostPort` the allocated endpoint. -/
structure SandboxInstance where
  sessionId : String
  dbml : String
  dataHash : String
  engine : SupportedEngine
  containerId : Nat
  hostPort : Nat
  createdAt : Nat
  lastAccessed : Nat
deriving DecidableEq, Repr

/-- `QueryResult` from the source. -/
structure QueryResult where
  rows : List Row
  columns : List String
deriving DecidableEq, Repr

/-- The manager's mutable state: the registry `sandboxes` (the JS `Map` as
an insertion-ordered association list), the Docker daemon's own listing of
running containers, and the fresh-handle/fresh-port allocators. -/
structure ManagerState where
  config : SandboxConfig
  sandboxes : List (String × SandboxInstance)
  liveContainers : List Nat
  nextContainer : Nat
  nextPort : Nat
deriving DecidableEq, Repr

/-- `Map.prototype.get`. -/
def lookupSb (m : List (String × SandboxInstance)) (k : String) : Option SandboxInstance :=
  match m with
  | [] => none
  | (k', v) :: rest => if k' = k then some v else lookupSb rest k

/-- `Map.prototype.set`: update in place if the key is present, append
otherwise. -/
def setSb (k : String) (v : SandboxInstance) :
    List (String × SandboxInstance) → List (String × SandboxInstance)
  | [] => [(k, v)]
  | (k', v') :: rest => if k' = k then (k, v) :: rest else (k', v') :: setSb k v rest

/-- `Map.prototype.delete`. -/
def removeSb (k : String) :
    List (String × SandboxInstance) → List (String × SandboxInstance)
  | [] => []
  | (k', v') :: rest => if k' = k then rest else (k', v') :: removeSb k rest

/-- The outcome oracle for one provisioning attempt: the value
`generateSessionId()` would return, whether the awaited readiness +
materialization block succeeds, and the error it throws when it fails. -/
structure BuildEnv where
  freshId : String
  buildOk : Bool
  failMsg : String
deriving DecidableEq, Repr

/-- `allocatePort` followed by `launchPostgresContainer`: returns the host
port, the new container handle, and the state with the container running. -/
def launchState (st : ManagerState) : Nat × Nat × ManagerState :=
  (st.nextPort, st.nextContainer,
    { st with
      nextPort := st.nextPort + 1
      nextContainer := st.nextContainer + 1
      liveContainers := st.nextContainer :: st.liveContainers })

/-- `ContainerSandboxManager.createSandbox`. On failure of the awaited
readiness/materialization block, `safeRemoveContainer` destroys the
just-launched container and the original error is rethrown; the record is
installed in the registry only after success. -/
def createSandbox (env : BuildEnv) (now : Nat) (st : ManagerState)
    (sessionId dbml : String) (_data : SeedData) (engine : SupportedEngine)
    (dataHash : String) : Except String SandboxInstance × ManagerState :=
  if engine = SupportedEngine.postgres then
    let l := launchState st
    let hostPort := l.1
    let cid := l.2.1
    let st1 := l.2.2
    if env.buildOk then
      let sb : SandboxInstance :=
        { sessionId := sessionId, dbml := dbml, dataHash := dataHash
          engine := engine, containerId := cid, hostPort := hostPort
          createdAt := now, lastAccessed := now }
      (.ok sb, { st1 with sandboxes := setSb sessionId sb st1.sandboxes })
    else
      (.error env.failMsg, { st1 with liveContainers := st1.liveContainers.erase cid })
  else
    (.error "Engine is not supported yet", st)

/-- `ContainerSandboxManager.deleteSandbox`: idempotent; removes the
container and deletes the record, no-ops on an unknown key. -/
def deleteSandbox (st : ManagerState) (sessionId : String) : ManagerState :=
  match lookupSb st.sandboxes sessionId with
  | none => st
  | some sandbox =>
    { st with
      liveContainers := st.liveContainers.erase sandbox.containerId
      sandboxes := removeSb sessionId st.sandboxes }

/-- `ContainerSandboxManager.replaceSandbox`: destroy-then-provision under
the same key. -/
def replaceSandbox (env : BuildEnv) (now : Nat) (st : ManagerState)
    (sessionId dbml : String) (data : SeedData) (engine : SupportedEngine)
    (dataHash : String) : Except String SandboxInstance × ManagerState :=
  createSandbox env now (deleteSandbox st sessionId) sessionId dbml data engine dataHash

/-- The session-key normalization at the top of `getOrCreateSandbox`:
a caller-supplied key is kept only when it is truthy (non-empty) and names
a registered record; otherwise `generateSessionId()` is used. -/
def normalizeSessionId (sandboxes : List (String × SandboxInstance))
    (sessionId : Option String) (freshId : String) : String :=
  match sessionId with
  | some k => if k ≠ "" ∧ (lookupSb sandboxes k).isSome then k else freshId
  | none => freshId

/-- `ContainerSandboxManager.getOrCreateSandbox`. -/
def getOrCreateSandbox (env : BuildEnv) (now : Nat) (st : ManagerState)
    (request : SandboxRequest) : Except String SandboxInstance × ManagerState :=
  let engine := request.engine.getD SupportedEngine.postgres
  let normalizedSessionId := normalizeSessionId st.sandboxes request.sessionId env.freshId
  let existing := lookupSb st.sandboxes normalizedSessionId
  let dataHash := computeDataHash request.dbml request.data
  match existing with
  | some existing =>
    if existing.dbml ≠ request.dbml ∨ existing.dataHash ≠ dataHash then
      replaceSandbox env now st existing.sessionId request.dbml request.data engine dataHash
    else
      let touched := { existing with lastAccessed := now }
      (.ok touched, { st with sandboxes := setSb normalizedSessionId touched st.sandboxes })
  | none =>
    createSandbox env now st normalizedSessionId request.dbml request.data engine dataHash

/-- The constant error `executeQuery` throws for an unknown key. -/
def sessionNotFoundMsg : String := "Sandbox session not found or expired"

/-- `ContainerSandboxManager.executeQuery`, with the short-lived postgres
connection abstracted to an oracle `runQ : hostPort → query → result`.
The `lastAccessed` touch happens before the query runs, so it persists
even when the statement itself fails. -/
def executeQuery (runQ : Nat → String → Except String QueryResult)
    (now : Nat) (st : ManagerState) (sessionId query : String) :
    Except String QueryResult × ManagerState :=
  match lookupSb st.sandboxes sessionId with
  | none => (.error sessionNotFoundMsg, st)
  | some sandbox =>
    let touched := { sandbox with lastAccessed := now }
    let st' := { st with sandboxes := setSb sessionId touched st.sandboxes }
    match sandbox.engine with
    | .postgres => (runQ sandbox.hostPort query, st')

/-- The expired-key scan of `cleanupExpiredSandboxes`. -/
def expiredKeys (st : ManagerState) (now : Nat) : List String :=
  (st.sandboxes.filter (fun p => now - p.2.lastAccessed > st.config.ttlMs)).map Prod.fst

/-- `ContainerSandboxManager.cleanupExpiredSandboxes`: scan, then destroy
each expired record through `deleteSandbox`. -/
def cleanupExpiredSandboxes (st : ManagerState) (now : Nat) : ManagerState :=
  (expiredKeys st now).foldl deleteSandbox st

/-- `ContainerSandboxManager.getActiveSandboxesCount`. -/
def getActiveSandboxesCount (st : ManagerState) : Nat :=
  st.sandboxes.length

/-! ## The seeding plan of `seedPostgresDatabase` -/

/-- One planned `INSERT` batch: the table, the column list taken from the
first row, and per row the values looked up for exactly those columns
(`none` models the `undefined` the driver sends as SQL `NULL`). -/
structure InsertPlan where
  table : String
  columns : List String
  rows : List (List (Option JsLit))
deriving DecidableEq, Repr

/-- `row[col]` on a JavaScript object row. -/
def rowGet (r : Row) (c : String) : Option JsLit :=
  match r with
  | [] => none
  | (k, v) :: rest => if k = c then some v else rowGet rest c

/-- The insert statements `seedPostgresDatabase` issues after the schema
statements: tables with no rows are skipped, the column list comes from
`Object.keys(rows[0])`, a table whose first row has no keys is skipped,
and each row contributes `columns.map(col => row[col])`. -/
def buildInserts (data : SeedData) : List InsertPlan :=
  data.filterMap (fun p =>
    match p.2 with
    | [] => none
    | r0 :: rest =>
      let columns := r0.map Prod.fst
      if columns = [] then none
      else some
        { table := p.1
          columns := columns
          rows := (r0 :: rest).map (fun r => columns.map (fun c => rowGet r c)) })

/-! ## The boundary validator of the container-sandbox path -/

/-- The ECMAScript WhiteSpace and LineTerminator code points stripped by
`String.prototype.trim`. -/
def isJsWhitespace (c : Char) : Bool :=
  c.toNat ∈ [0x9, 0xa, 0xb, 0xc, 0xd, 0x20, 0xa0, 0x1680,
    0x2000, 0x2001, 0x2002, 0x2003, 0x2004, 0x2005, 0x2006, 0x2007,
    0x2008, 0x2009, 0x200a, 0x2028, 0x2029, 0x202f, 0x205f, 0x3000, 0xfeff]

/-- `String.prototype.trim`. -/
def jsTrim (s : String) : String :=
  String.mk (((s.data.dropWhile isJsWhitespace).reverse.dropWhile isJsWhitespace).reverse)

/-- `SQLExecutor.validateQuery` on the container-sandbox path
(backend/src/services/sqlExecutor.ts): reject exactly the falsy or
all-whitespace query, no statement-kind restriction. -/
def validateQuery (query : String) : Bool × Option String :=
  if query = "" ∨ (jsTrim query).data.length = 0 then
    (false, some "Query cannot be empty")
  else
    (true, none)

/-! ## Interleaving model of concurrent `getOrCreateSandbox` calls

`getOrCreateSandbox` is an `async` method whose synchronous prefix (key
normalization, registry lookup, fingerprint comparison, branch choice) runs
atomically up to the first `await`.  A task is therefore split at its await
points into phases: `decide` (the synchronous prefix), `doDelete`
(`deleteSandbox` inside `replaceSandbox`), `doCreate` (port allocation and
container launch plus the awaited readiness/seed block, assumed to
succeed), and `install` (the synchronous record construction and
`Map.set` after the last `await`).  The event loop may run another task
between any two phases. -/

/-- The phase a concurrent `getOrCreateSandbox` task is suspended at. -/
inductive Phase where
  | decide | doDelete | doCreate | install | done
deriving DecidableEq, Repr

/-- One in-flight `getOrCreateSandbox` call: its request, its oracle
fresh id, and the locals accumulated so far. -/
structure TaskCtx where
  phase : Phase
  sessionId : Option String
  dbml : String
  data : SeedData
  freshId : String
  key : String
  hash : String
  port : Nat
  cid : Nat
  result : Option SandboxInstance
deriving DecidableEq, Repr

/-- Shared manager state plus two concurrent tasks. -/
structure ConcState where
  mgr : ManagerState
  taskA : TaskCtx
  taskB : TaskCtx
deriving DecidableEq, Repr

/-- Run the scheduled task's next phase against the shared state. -/
def stepTask (now : Nat) (mgr : ManagerState) (t : TaskCtx) : ManagerState × TaskCtx :=
  match t.phase with
  | .decide =>
    let normalized := normalizeSessionId mgr.sandboxes t.sessionId t.freshId
    let dataHash := computeDataHash t.dbml t.data
    match lookupSb mgr.sandboxes normalized with
    | some existing =>
      if existing.dbml ≠ t.dbml ∨ existing.dataHash ≠ dataHash then
        (mgr, { t with phase := .doDelete, key := existing.sessionId, hash := dataHash })
      else
        let touched := { existing with lastAccessed := now }
        ({ mgr with sandboxes := setSb normalized touched mgr.sandboxes },
          { t with phase := .done, result := some touched })
    | none => (mgr, { t with phase := .doCreate, key := normalized, hash := dataHash })
  | .doDelete => (deleteSandbox mgr t.key, { t with phase := .doCreate })
  | .doCreate =>
    let l := launchState mgr
    (l.2.2, { t with phase := .install, port := l.1, cid := l.2.1 })
  | .install =>
    let sb : SandboxInstance :=
      { sessionId := t.key, dbml := t.dbml, dataHash := t.hash
        engine := .postgres, containerId := t.cid, hostPort := t.port
        createdAt := now, lastAccessed := now }
    ({ mgr with sandboxes := setSb t.key sb mgr.sandboxes },
      { t with phase := .done, result := some sb })
  | .done => (mgr, t)

/-- Schedule one step of task A (`true`) or task B (`false`). -/
def stepConc (now : Nat) (c : ConcState) (who : Bool) : ConcState :=
  if who then
    let r := stepTask now c.mgr c.taskA
    { c with mgr := r.1, taskA := r.2 }
  else
    let r := stepTask now c.mgr c.taskB
    { c with mgr := r.1, taskB := r.2 }

/-- Run a whole schedule. -/
def runSched (now : Nat) (c : ConcState) (sched : List Bool) : ConcState :=
  sched.foldl (stepConc now) c

/-! ## Auxiliary predicates used by the unambiguity proofs -/

/-- A character list whose head (if any) is not a decimal digit: the shape
of every continuation that follows a serialized number. -/
def headNotDigit (x : List Char) : Prop :=
  ∀ c, x.head? = some c → isDigitC c = false

/-- A continuation that starts with a separator or a closing bracket: the
shape of what follows a serialized value inside a JSON object or array. -/
def SepHead (x : List Char) : Prop :=
  x.head? = some ',' ∨ x.head? = some '}' ∨ x.head? = some ']'

/-- The container id of the sandbox returned by a `getOrCreateSandbox`
result, if the call succeeded. -/
def resContainerId (r : Except String SandboxInstance × ManagerState) : Option Nat :=
  match r.1 with
  | .ok inst => some inst.containerId
  | .error _ => none

/-- The session key of the sandbox returned by a `getOrCreateSandbox`
result, if the call succeeded. -/
def resSessionId (r : Except String SandboxInstance × ManagerState) : Option String :=
  match r.1 with
  | .ok inst => some inst.sessionId
  | .error _ => none

/-- Iterate `getOrCreateSandbox` with a fixed request at the given list of
call times, collecting each call's outcome. -/
def runCalls (env : BuildEnv) (request : SandboxRequest) :
    List Nat → ManagerState → List (Except String SandboxInstance) × ManagerState
  | [], st => ([], st)
  | t :: ts, st =>
    let r := getOrCreateSandbox env t st request
    let rest := runCalls env request ts r.2
    (r.1 :: rest.1, rest.2)

/-- The four states a `replaceSandbox` call passes through, in order: the
initial state, the state after the old sandbox is destroyed, the state
after the new container is launched, and the final state. -/
def replaceTrace (env : BuildEnv) (now : Nat) (st : ManagerState)
    (sessionId dbml : String) (data : SeedData) (engine : SupportedEngine)
    (dataHash : String) : List ManagerState :=
  let st1 := deleteSandbox st sessionId
  let st2 := (launchState st1).2.2
  [st, st1, st2, (replaceSandbox env now st sessionId dbml data engine dataHash).2]

/-! ## Basic facts about digits and characters -/

theorem char_toNat_inj {a b : Char} (h : a.toNat = b.toNat) : a = b :=
  Char.ext (UInt32.ext (by exact_mod_cast h))

theorem digitChar_isDigit {n : Nat} (h : n < 10) : isDigitC (digitChar n) = true := by
  interval_cases n <;> decide

theorem digitChar_inj {a b : Nat} (ha : a < 10) (hb : b < 10)
    (h : digitChar a = digitChar b) : a = b := by
  interval_cases a <;> interval_cases b <;> revert h <;> decide

theorem hexChar_inj {a b : Nat} (ha : a < 16) (hb : b < 16)
    (h : hexChar a = hexChar b) : a = b := by
  interval_cases a <;> interval_cases b <;> revert h <;> decide

theorem append_singleton_inj {α : Type _} {l l' : List α} {a b : α}
    (h : l ++ [a] = l' ++ [b]) : l = l' ∧ a = b := by
  have hlen : l.length = l'.length := by
    have := congrArg List.length h
    simp at this
    omega
  obtain ⟨h1, h2⟩ := List.append_inj h hlen
  exact ⟨h1, by simpa using h2⟩

theorem natChars_eq (n : Nat) :
    natChars n = (if n < 10 then [] else natChars (n / 10)) ++ [digitChar (n % 10)] := by
  rw [natChars]
  split
  · simp [Nat.mod_eq_of_lt ‹n < 10›]
  · rfl

theorem natChars_ne_nil (n : Nat) : natChars n ≠ [] := by
  rw [natChars_eq]
  simp

theorem natChars_digits (n : Nat) : ∀ c ∈ natChars n, isDigitC c = true := by
  induction n using Nat.strong_induction_on with
  | _ n ih =>
    rw [natChars_eq]
    intro c hc
    rcases List.mem_append.mp hc with hmem | hmem
    · split at hmem
      · simp at hmem
      · exact ih (n / 10) (Nat.div_lt_self (by omega) (by omega)) c hmem
    · simp at hmem
      subst hmem
      exact digitChar_isDigit (Nat.mod_lt _ (by omega))

theorem natChars_inj : ∀ {n m : Nat}, natChars n = natChars m → n = m := by
  intro n
  induction n using Nat.strong_induction_on with
  | _ n ih =>
    intro m h
    rw [natChars_eq n, natChars_eq m] at h
    obtain ⟨h1, h2⟩ := append_singleton_inj h
    have hmod : n % 10 = m % 10 :=
      digitChar_inj (Nat.mod_lt _ (by omega)) (Nat.mod_lt _ (by omega)) h2
    split at h1 <;> split at h1
    · omega
    · exact absurd h1.symm (natChars_ne_nil _)
    · exact absurd h1 (natChars_ne_nil _)
    · have := ih (n / 10) (Nat.div_lt_self (by omega) (by omega)) h1
      omega

theorem digits_prefix :
    ∀ {p q x y : List Char}, (∀ c ∈ p, isDigitC c = true) → (∀ c ∈ q, isDigitC c = true) →
      headNotDigit x → headNotDigit y → p ++ x = q ++ y → p = q ∧ x = y := by
  intro p
  induction p with
  | nil =>
    intro q x y _ hq hx _ h
    cases q with
    | nil => simpa using h
    | cons d ds =>
      simp at h
      exfalso
      have hd : x.head? = some d := by rw [h]; rfl
      have := hx d hd
      have := hq d (by simp)
      simp_all
  | cons c cs ih =>
    intro q x y hp hq hx hy h
    cases q with
    | nil =>
      simp at h
      exfalso
      have hc : y.head? = some c := by rw [← h]; rfl
      have := hy c hc
      have := hp c (by simp)
      simp_all
    | cons d ds =>
      simp at h
      obtain ⟨rfl, h2⟩ := h
      obtain ⟨rfl, rfl⟩ := ih (fun e he => hp e (by simp [he])) (fun e he => hq e (by simp [he])) hx hy h2
      exact ⟨rfl, rfl⟩

theorem natChars_prefix {n m : Nat} {x y : List Char}
    (hx : headNotDigit x) (hy : headNotDigit y)
    (h : natChars n ++ x = natChars m ++ y) : n = m ∧ x = y := by
  obtain ⟨h1, h2⟩ := digits_prefix (natChars_digits n) (natChars_digits m) hx hy h
  exact ⟨natChars_inj h1, h2⟩

theorem natChars_head_digit (n : Nat) :
    ∃ c t, natChars n = c :: t ∧ isDigitC c = true := by
  cases hn : natChars n with
  | nil => exact absurd hn (natChars_ne_nil n)
  | cons c t => exact ⟨c, t, rfl, natChars_digits n c (by rw [hn]; simp)⟩

theorem intChars_prefix {i j : Int} {x y : List Char}
    (hx : headNotDigit x) (hy : headNotDigit y)
    (h : intChars i ++ x = intChars j ++ y) : i = j ∧ x = y := by
  unfold intChars at h
  split at h <;> split at h
  · simp at h
    obtain ⟨habs, h2⟩ := natChars_prefix hx hy h
    exact ⟨by omega, h2⟩
  · exfalso
    obtain ⟨c, t, hct, hd⟩ := natChars_head_digit j.natAbs
    rw [hct] at h
    simp at h
    obtain ⟨rfl, -⟩ := h
    revert hd
    decide
  · exfalso
    obtain ⟨c, t, hct, hd⟩ := natChars_head_digit i.natAbs
    rw [hct] at h
    simp at h
    obtain ⟨rfl, -⟩ := h
    revert hd
    decide
  · obtain ⟨habs, h2⟩ := natChars_prefix hx hy h
    exact ⟨by omega, h2⟩

theorem intChars_head {i : Int} {c : Char} (h : (intChars i).head? = some c) :
    isDigitC c = true ∨ c = '-' := by
  unfold intChars at h
  split at h
  · simp at h
    exact Or.inr h.symm
  · obtain ⟨d, t, hct, hd⟩ := natChars_head_digit i.natAbs
    rw [hct] at h
    simp at h
    subst h
    exact Or.inl hd

/-! ## The escaped JSON string body is a prefix code -/

theorem escC_ne_nil (c : Char) : escC c ≠ [] := by
  unfold escC
  split_ifs <;> simp

theorem escC_head_ne_quote (c : Char) : ∀ h, (escC c).head? = some h → h ≠ '"' := by
  unfold escC
  split_ifs with h1 h2 h3 h4 h5 h6 h7 h8 <;> intro h hh <;> simp at hh <;> subst hh
  all_goals first | decide | exact h1

set_option maxHeartbeats 2000000 in
theorem escC_prefix {c c' : Char} {x y : List Char}
    (h : escC c ++ x = escC c' ++ y) : c = c' ∧ x = y := by
  unfold escC at h
  split_ifs at h <;> simp_all
  all_goals try exact absurd h.1.symm (by assumption)
  all_goals
    (have d1 := hexChar_inj (a := c.toNat / 16) (b := c'.toNat / 16) (by omega) (by omega) h.1
     have d2 := hexChar_inj (a := c.toNat % 16) (b := c'.toNat % 16) (by omega) (by omega) h.2.1
     exact char_toNat_inj (by omega))

theorem escS_quote_inj :
    ∀ {s s' x x' : List Char}, escS s ++ '"' :: x = escS s' ++ '"' :: x' →
      s = s' ∧ x = x' := by
  intro s
  induction s with
  | nil =>
    intro s' x x' h
    cases s' with
    | nil => simpa using h
    | cons c cs =>
      exfalso
      simp [escS, List.append_assoc] at h
      obtain ⟨hc, t, hct⟩ : ∃ hc t, escC c = hc :: t := by
        cases he : escC c with
        | nil => exact absurd he (escC_ne_nil c)
        | cons a b => exact ⟨a, b, rfl⟩
      rw [hct] at h
      simp at h
      exact escC_head_ne_quote c hc (by rw [hct]; rfl) h.1.symm
  | cons c cs ih =>
    intro s' x x' h
    cases s' with
    | nil =>
      exfalso
      simp [escS, List.append_assoc] at h
      obtain ⟨hc, t, hct⟩ : ∃ hc t, escC c = hc :: t := by
        cases he : escC c with
        | nil => exact absurd he (escC_ne_nil c)
        | cons a b => exact ⟨a, b, rfl⟩
      rw [hct] at h
      simp at h
      exact escC_head_ne_quote c hc (by rw [hct]; rfl) h.1
    | cons c' cs' =>
      simp only [escS, List.append_assoc] at h
      obtain ⟨rfl, h2⟩ := escC_prefix h
      obtain ⟨rfl, rfl⟩ := ih h2
      exact ⟨rfl, rfl⟩

theorem quotedS_prefix {s s' : String} {x x' : List Char}
    (h : quotedS s ++ x = quotedS s' ++ x') : s = s' ∧ x = x' := by
  unfold quotedS at h
  simp only [List.cons_append, List.append_assoc, List.singleton_append, List.cons.injEq] at h
  obtain ⟨hdata, rfl⟩ := escS_quote_inj h.2
  refine ⟨?_, rfl⟩
  cases s
  cases s'
  simp_all

theorem quotedS_ne_nil (s : String) : quotedS s ≠ [] := by
  simp [quotedS]

theorem quotedS_head (s : String) : (quotedS s).head? = some '"' := rfl

/-! ## Unambiguity of the JSON value serializers -/

theorem sepHead_not_digit {x : List Char} (h : SepHead x) : headNotDigit x := by
  intro c hc
  rcases h with h | h | h <;> rw [h] at hc <;> simp at hc <;> subst hc <;> decide

theorem sepChars_cons (f : α → List Char) (a : α) (l : List α) :
    sepChars f (a :: l) = f a ++ (if l.isEmpty then [] else ',' :: sepChars f l) := by
  cases l <;> simp [sepChars]

theorem litChars_prefix :
    ∀ {v v' : JsLit} {x y : List Char}, SepHead x → SepHead y →
      litChars v ++ x = litChars v' ++ y → v = v' ∧ x = y := by
  have hnum : ∀ (i : Int) (z : List Char) (c : Char) (r : List Char),
      intChars i ++ z = c :: r → isDigitC c = true ∨ c = '-' := by
    intro i z c r h
    obtain ⟨d, t, hdt⟩ : ∃ d t, intChars i = d :: t := by
      unfold intChars
      split
      · exact ⟨_, _, rfl⟩
      · obtain ⟨d, t, hdt, -⟩ := natChars_head_digit i.natAbs
        exact ⟨d, t, hdt⟩
    rw [hdt] at h
    simp at h
    obtain ⟨hdc, -⟩ := h
    subst hdc
    exact intChars_head (by rw [hdt]; rfl)
  have hstr : ∀ (s : String) (z : List Char) (c : Char) (r : List Char),
      quotedS s ++ z = c :: r → c = '"' := by
    intro s z c r h
    have h2 : '"' :: (escS s.data ++ ['"'] ++ z) = c :: r := by
      simpa [quotedS, List.append_assoc] using h
    injection h2 with h3 _
    exact h3.symm
  intro v v' x y hx hy h
  cases v <;> cases v' <;>
    simp only [litChars, List.cons_append, List.nil_append, List.append_assoc,
      List.cons.injEq] at h
  case null.null => simpa using h
  case bool.bool b b' => cases b <;> cases b' <;> simp_all
  case num.num i j =>
    obtain ⟨rfl, rfl⟩ := intChars_prefix (sepHead_not_digit hx) (sepHead_not_digit hy) h
    exact ⟨rfl, rfl⟩
  case str.str s t =>
    obtain ⟨rfl, rfl⟩ := quotedS_prefix h
    exact ⟨rfl, rfl⟩
  case null.bool b => cases b <;> simp_all
  case bool.null b => cases b <;> simp_all
  case null.num i =>
    exfalso
    rcases hnum i y 'n' _ h.symm with hd | hd <;> revert hd <;> decide
  case num.null i =>
    exfalso
    rcases hnum i x 'n' _ h with hd | hd <;> revert hd <;> decide
  case bool.num b i =>
    exfalso
    cases b <;> simp only [List.cons_append, List.cons.injEq] at h <;>
      [rcases hnum i y 'f' _ h.symm with hd | hd;
       rcases hnum i y 't' _ h.symm with hd | hd] <;> revert hd <;> decide
  case num.bool i b =>
    exfalso
    cases b <;> simp only [List.cons_append, List.cons.injEq] at h <;>
      [rcases hnum i x 'f' _ h with hd | hd;
       rcases hnum i x 't' _ h with hd | hd] <;> revert hd <;> decide
  case null.str s =>
    exfalso
    have hc := hstr s y 'n' _ h.symm
    revert hc
    decide
  case str.null s =>
    exfalso
    have hc := hstr s x 'n' _ h
    revert hc
    decide
  case bool.str b s =>
    exfalso
    cases b <;> simp only [List.cons_append, List.cons.injEq] at h
    · have hc := hstr s y 'f' _ h.symm
      revert hc
      decide
    · have hc := hstr s y 't' _ h.symm
      revert hc
      decide
  case str.bool s b =>
    exfalso
    cases b <;> simp only [List.cons_append, List.cons.injEq] at h
    · have hc := hstr s x 'f' _ h
      revert hc
      decide
    · have hc := hstr s x 't' _ h
      revert hc
      decide
  case num.str i s =>
    exfalso
    have h2 : intChars i ++ x = '"' :: (escS s.data ++ ['"'] ++ y) := by
      simpa [quotedS, List.append_assoc] using h
    rcases hnum i x '"' _ h2 with hd | hd <;> revert hd <;> decide
  case str.num s i =>
    exfalso
    have h2 : intChars i ++ y = '"' :: (escS s.data ++ ['"'] ++ x) := by
      simpa [quotedS, List.append_assoc] using h.symm
    rcases hnum i y '"' _ h2 with hd | hd <;> revert hd <;> decide

set_option maxHeartbeats 1600000 in
theorem sepChars_close_inj {α : Type _} {f : α → List Char} {closeCh : Char}
    (HF : ∀ {v x v' y}, SepHead x → SepHead y → f v ++ x = f v' ++ y → v = v' ∧ x = y)
    (Hne : ∀ v, f v ≠ [])
    (Hhead : ∀ v c t, f v = c :: t → c ≠ closeCh)
    (Hc : closeCh = '}' ∨ closeCh = ']') :
    ∀ {l l' : List α} {x y : List Char},
      sepChars f l ++ closeCh :: x = sepChars f l' ++ closeCh :: y →
        l = l' ∧ x = y := by
  have hcomma : closeCh ≠ ',' := by rcases Hc with rfl | rfl <;> decide
  intro l
  induction l with
  | nil =>
    intro l' x y h
    cases l' with
    | nil => simpa [sepChars] using h
    | cons a as =>
      exfalso
      rw [sepChars_cons] at h
      obtain ⟨c, t, hct⟩ : ∃ c t, f a = c :: t := by
        cases he : f a with
        | nil => exact absurd he (Hne a)
        | cons c t => exact ⟨c, t, rfl⟩
      rw [hct] at h
      simp [sepChars] at h
      exact Hhead a c t hct h.1.symm
  | cons a as ih =>
    intro l' x y h
    cases l' with
    | nil =>
      exfalso
      rw [sepChars_cons] at h
      obtain ⟨c, t, hct⟩ : ∃ c t, f a = c :: t := by
        cases he : f a with
        | nil => exact absurd he (Hne a)
        | cons c t => exact ⟨c, t, rfl⟩
      rw [hct] at h
      simp [sepChars] at h
      exact Hhead a c t hct h.1
    | cons a' as' =>
      rw [sepChars_cons, sepChars_cons] at h
      rw [List.append_assoc, List.append_assoc] at h
      have hsh : ∀ (as0 : List α) (z : List Char),
          SepHead ((if as0.isEmpty then [] else ',' :: sepChars f as0) ++ closeCh :: z) := by
        intro as0 z
        cases as0 with
        | nil =>
          rcases Hc with rfl | rfl
          · exact Or.inr (Or.inl (by simp))
          · exact Or.inr (Or.inr (by simp))
        | cons b bs => exact Or.inl (by simp)
      obtain ⟨rfl, hT2⟩ := HF (hsh as x) (hsh as' y) h
      cases as with
      | nil =>
        cases as' with
        | nil =>
          simp at hT2
          exact ⟨rfl, hT2⟩
        | cons b' bs' =>
          exfalso
          simp at hT2
          exact hcomma hT2.1
      | cons b bs =>
        cases as' with
        | nil =>
          exfalso
          simp at hT2
          exact hcomma hT2.1.symm
        | cons b' bs' =>
          simp only [List.isEmpty_cons, Bool.false_eq_true, ite_false, List.cons_append,
            List.cons.injEq, true_and] at hT2
          obtain ⟨h3, h4⟩ := ih hT2
          simp_all

theorem pairChars_prefix {α : Type _} {fv : α → List Char}
    (HFv : ∀ {v x v' y}, SepHead x → SepHead y → fv v ++ x = fv v' ++ y → v = v' ∧ x = y)
    {p p' : String × α} {x y : List Char} (hx : SepHead x) (hy : SepHead y)
    (h : pairChars fv p ++ x = pairChars fv p' ++ y) : p = p' ∧ x = y := by
  unfold pairChars at h
  rw [List.append_assoc, List.append_assoc] at h
  obtain ⟨h1, h2⟩ := quotedS_prefix h
  simp only [List.cons_append, List.cons.injEq, true_and] at h2
  obtain ⟨h3, h4⟩ := HFv hx hy h2
  obtain ⟨pa, pb⟩ := p
  obtain ⟨qa, qb⟩ := p'
  simp_all

theorem objChars_prefix {α : Type _} {fv : α → List Char}
    (HFv : ∀ {v x v' y}, SepHead x → SepHead y → fv v ++ x = fv v' ++ y → v = v' ∧ x = y)
    {l l' : List (String × α)} {x y : List Char}
    (h : objChars fv l ++ x = objChars fv l' ++ y) : l = l' ∧ x = y := by
  unfold objChars at h
  simp only [List.cons_append, List.append_assoc, List.singleton_append,
    List.cons.injEq, true_and] at h
  exact sepChars_close_inj (fun hx hy hpq => pairChars_prefix HFv hx hy hpq)
    (fun p => by simp [pairChars, quotedS])
    (fun p c t hct => by
      have hc : c = '"' := by
        have h0 : (pairChars fv p).head? = some '"' := by simp [pairChars, quotedS]
        rw [hct] at h0
        simpa using h0
      rw [hc]
      decide)
    (Or.inl rfl) h

theorem arrChars_prefix {α : Type _} {fe : α → List Char}
    (HFe : ∀ {v x v' y}, SepHead x → SepHead y → fe v ++ x = fe v' ++ y → v = v' ∧ x = y)
    (HneE : ∀ v, fe v ≠ [])
    (HheadE : ∀ v c t, fe v = c :: t → c ≠ ']')
    {l l' : List α} {x y : List Char}
    (h : arrChars fe l ++ x = arrChars fe l' ++ y) : l = l' ∧ x = y := by
  unfold arrChars at h
  simp only [List.cons_append, List.append_assoc, List.singleton_append,
    List.cons.injEq, true_and] at h
  exact sepChars_close_inj (fun hx hy hpq => HFe hx hy hpq) HneE HheadE (Or.inr rfl) h

theorem rowChars_prefix {r r' : Row} {x y : List Char}
    (h : rowChars r ++ x = rowChars r' ++ y) : r = r' ∧ x = y :=
  objChars_prefix (fun hx hy hpq => litChars_prefix hx hy hpq) h

theorem tableRowsChars_prefix {l l' : List Row} {x y : List Char}
    (h : tableRowsChars l ++ x = tableRowsChars l' ++ y) : l = l' ∧ x = y :=
  arrChars_prefix (fun _hx _hy hpq => rowChars_prefix hpq)
    (fun r => by simp [rowChars, objChars])
    (fun r c t hct => by
      have h0 : (rowChars r).head? = some '{' := by simp [rowChars, objChars]
      rw [hct] at h0
      simp at h0
      rw [h0]
      decide) h

theorem dataChars_prefix {a a' : SeedData} {x y : List Char}
    (h : dataChars a ++ x = dataChars a' ++ y) : a = a' ∧ x = y :=
  objChars_prefix (fun _hx _hy hpq => tableRowsChars_prefix hpq) h

/-- C7: the drift fingerprint is a deterministic function of the schema
description and seed data, and it is injective: two requests receive the
same fingerprint exactly when their schema description and seed data are
equal, so any change to either yields a different fingerprint and a record
is reused only on an exact match. -/
theorem computeDataHash_deterministic_injective :
    ∀ (d : String) (a : SeedData) (d' : String) (a' : SeedData),
      computeDataHash d a = computeDataHash d' a' ↔ d = d' ∧ a = a' := by
  intro d a d' a'
  constructor
  · intro h
    have h2 : topChars d a = topChars d' a' := by
      unfold computeDataHash at h
      injection h
    unfold topChars at h2
    simp only [List.cons.injEq, true_and] at h2
    obtain ⟨rfl, h3⟩ := quotedS_prefix h2
    simp only [List.cons.injEq, true_and] at h3
    obtain ⟨rfl, -⟩ := dataChars_prefix h3
    exact ⟨rfl, rfl⟩
  · rintro ⟨rfl, rfl⟩
    rfl

/-! ## Registry (association list) lemmas -/

theorem lookupSb_cons_self (k : String) (v : SandboxInstance)
    (rest : List (String × SandboxInstance)) :
    lookupSb ((k, v) :: rest) k = some v := by
  simp [lookupSb]

theorem lookupSb_cons_ne {k0 k : String} (v : SandboxInstance)
    (rest : List (String × SandboxInstance)) (h : k0 ≠ k) :
    lookupSb ((k0, v) :: rest) k = lookupSb rest k := by
  simp [lookupSb, h]

theorem lookupSb_setSb_self (m : List (String × SandboxInstance)) (k : String)
    (v : SandboxInstance) : lookupSb (setSb k v m) k = some v := by
  induction m with
  | nil => simp [setSb, lookupSb]
  | cons p rest ih =>
    obtain ⟨k0, v0⟩ := p
    by_cases hk : k0 = k <;> simp [setSb, hk, lookupSb, ih]

theorem lookupSb_setSb_ne (m : List (String × SandboxInstance)) {k k' : String}
    (v : SandboxInstance) (h : k' ≠ k) :
    lookupSb (setSb k v m) k' = lookupSb m k' := by
  induction m with
  | nil => simp [setSb, lookupSb, Ne.symm h]
  | cons p rest ih =>
    obtain ⟨k0, v0⟩ := p
    by_cases hk : k0 = k
    · subst hk
      simp [setSb, lookupSb, Ne.symm h]
    · simp [setSb, hk, lookupSb, ih]

theorem lookupSb_removeSb_ne (m : List (String × SandboxInstance)) {k k' : String}
    (h : k' ≠ k) : lookupSb (removeSb k m) k' = lookupSb m k' := by
  induction m with
  | nil => simp [removeSb]
  | cons p rest ih =>
    obtain ⟨k0, v0⟩ := p
    by_cases hk : k0 = k
    · subst hk
      simp [removeSb, lookupSb, Ne.symm h]
    · simp [removeSb, hk, lookupSb, ih]

theorem lookupSb_eq_none_iff (m : List (String × SandboxInstance)) (k : String) :
    lookupSb m k = none ↔ k ∉ m.map Prod.fst := by
  induction m with
  | nil => simp [lookupSb]
  | cons p rest ih =>
    obtain ⟨k0, v0⟩ := p
    by_cases hk : k0 = k
    · subst hk
      simp [lookupSb]
    · rw [lookupSb_cons_ne v0 rest hk, ih]
      constructor
      · intro hnot h2
        rw [List.map_cons, List.mem_cons] at h2
        rcases h2 with he | hm
        · exact hk he.symm
        · exact hnot hm
      · intro h2 hm
        exact h2 (by rw [List.map_cons, List.mem_cons]; exact Or.inr hm)

theorem lookupSb_removeSb_self (m : List (String × SandboxInstance)) (k : String)
    (h : (m.map Prod.fst).Nodup) : lookupSb (removeSb k m) k = none := by
  induction m with
  | nil => simp [removeSb, lookupSb]
  | cons p rest ih =>
    obtain ⟨k0, v0⟩ := p
    rw [List.map_cons, List.nodup_cons] at h
    by_cases hk : k0 = k
    · subst hk
      show lookupSb (removeSb k0 ((k0, v0) :: rest)) k0 = none
      rw [show removeSb k0 ((k0, v0) :: rest) = rest from by simp [removeSb]]
      exact (lookupSb_eq_none_iff rest k0).mpr h.1
    · rw [show removeSb k ((k0, v0) :: rest) = (k0, v0) :: removeSb k rest from by
        simp [removeSb, hk]]
      rw [lookupSb_cons_ne v0 _ hk]
      exact ih h.2

theorem removeSb_keys_sublist (m : List (String × SandboxInstance)) (k : String) :
    ((removeSb k m).map Prod.fst).Sublist (m.map Prod.fst) := by
  induction m with
  | nil => simp [removeSb]
  | cons p rest ih =>
    obtain ⟨k0, v0⟩ := p
    by_cases hk : k0 = k
    · rw [show removeSb k ((k0, v0) :: rest) = rest from by simp [removeSb, hk]]
      exact (List.sublist_cons_self _ _)
    · rw [show removeSb k ((k0, v0) :: rest) = (k0, v0) :: removeSb k rest from by
        simp [removeSb, hk]]
      simpa using ih

theorem removeSb_cids_sublist (m : List (String × SandboxInstance)) (k : String) :
    ((removeSb k m).map (fun p => p.2.containerId)).Sublist
      (m.map (fun p => p.2.containerId)) := by
  induction m with
  | nil => simp [removeSb]
  | cons p rest ih =>
    obtain ⟨k0, v0⟩ := p
    by_cases hk : k0 = k
    · rw [show removeSb k ((k0, v0) :: rest) = rest from by simp [removeSb, hk]]
      exact (List.sublist_cons_self _ _)
    · rw [show removeSb k ((k0, v0) :: rest) = (k0, v0) :: removeSb k rest from by
        simp [removeSb, hk]]
      simpa using ih

theorem lookupSb_mem (m : List (String × SandboxInstance)) {k : String}
    {v : SandboxInstance} (h : lookupSb m k = some v) : (k, v) ∈ m := by
  induction m with
  | nil => simp [lookupSb] at h
  | cons p rest ih =>
    obtain ⟨k0, v0⟩ := p
    by_cases hk : k0 = k
    · subst hk
      rw [lookupSb_cons_self] at h
      simp at h
      simp [h]
    · rw [lookupSb_cons_ne v0 rest hk] at h
      simp [ih h]

/-! ## Manager operation lemmas -/

theorem createSandbox_ok (env : BuildEnv) (now : Nat) (st : ManagerState)
    (k dbml : String) (data : SeedData) (hash : String) (hok : env.buildOk = true) :
    createSandbox env now st k dbml data .postgres hash =
      (.ok ⟨k, dbml, hash, .postgres, st.nextContainer, st.nextPort, now, now⟩,
       { st with
          nextPort := st.nextPort + 1
          nextContainer := st.nextContainer + 1
          liveContainers := st.nextContainer :: st.liveContainers
          sandboxes := setSb k ⟨k, dbml, hash, .postgres, st.nextContainer, st.nextPort, now, now⟩
            st.sandboxes }) := by
  unfold createSandbox launchState
  simp [hok]

theorem createSandbox_fail (env : BuildEnv) (now : Nat) (st : ManagerState)
    (k dbml : String) (data : SeedData) (hash : String) (hfail : env.buildOk = false) :
    createSandbox env now st k dbml data .postgres hash =
      (.error env.failMsg,
       { st with
          nextPort := st.nextPort + 1
          nextContainer := st.nextContainer + 1
          liveContainers := (st.nextContainer :: st.liveContainers).erase st.nextContainer }) := by
  unfold createSandbox launchState
  simp [hfail]

theorem executeQuery_lookup_none (runQ : Nat → String → Except String QueryResult)
    (now : Nat) (st : ManagerState) (k q : String)
    (h : lookupSb st.sandboxes k = none) :
    executeQuery runQ now st k q = (.error sessionNotFoundMsg, st) := by
  unfold executeQuery
  rw [h]

theorem executeQuery_lookup_some (runQ : Nat → String → Except String QueryResult)
    (now : Nat) (st : ManagerState) (k q : String) {sb : SandboxInstance}
    (h : lookupSb st.sandboxes k = some sb) :
    executeQuery runQ now st k q =
      (runQ sb.hostPort q,
       { st with sandboxes := setSb k { sb with lastAccessed := now } st.sandboxes }) := by
  unfold executeQuery
  rw [h]

theorem deleteSandbox_lookup_self (st : ManagerState) (k : String)
    (hkeys : (st.sandboxes.map Prod.fst).Nodup) :
    lookupSb (deleteSandbox st k).sandboxes k = none := by
  unfold deleteSandbox
  cases hl : lookupSb st.sandboxes k with
  | none => exact hl
  | some sb => exact lookupSb_removeSb_self _ _ hkeys

theorem deleteSandbox_lookup_ne (st : ManagerState) {k k' : String} (h : k' ≠ k) :
    lookupSb (deleteSandbox st k).sandboxes k' = lookupSb st.sandboxes k' := by
  unfold deleteSandbox
  cases hl : lookupSb st.sandboxes k with
  | none => rfl
  | some sb => exact lookupSb_removeSb_ne _ h

theorem deleteSandbox_live_mono (st : ManagerState) (k : String) {c : Nat}
    (h : c ∈ (deleteSandbox st k).liveContainers) : c ∈ st.liveContainers := by
  unfold deleteSandbox at h
  cases hl : lookupSb st.sandboxes k <;> rw [hl] at h
  · exact h
  · exact List.mem_of_mem_erase h

theorem deleteSandbox_keys_nodup (st : ManagerState) (k : String)
    (h : (st.sandboxes.map Prod.fst).Nodup) :
    ((deleteSandbox st k).sandboxes.map Prod.fst).Nodup := by
  unfold deleteSandbox
  cases hl : lookupSb st.sandboxes k
  · exact h
  · exact (removeSb_keys_sublist _ _).nodup h

theorem deleteSandbox_cids_nodup (st : ManagerState) (k : String)
    (h : (st.sandboxes.map (fun p => p.2.containerId)).Nodup) :
    ((deleteSandbox st k).sandboxes.map (fun p => p.2.containerId)).Nodup := by
  unfold deleteSandbox
  cases hl : lookupSb st.sandboxes k
  · exact h
  · exact (removeSb_cids_sublist _ _).nodup h

theorem deleteSandbox_live_nodup (st : ManagerState) (k : String)
    (h : st.liveContainers.Nodup) : (deleteSandbox st k).liveContainers.Nodup := by
  unfold deleteSandbox
  cases hl : lookupSb st.sandboxes k
  · exact h
  · exact h.erase _

theorem getOrCreate_reuse_eq (env : BuildEnv) (now : Nat) (st : ManagerState)
    (k dbml : String) (data : SeedData) (eng : Option SupportedEngine)
    {inst : SandboxInstance}
    (hk : k ≠ "")
    (hlook : lookupSb st.sandboxes k = some inst)
    (hdbml : inst.dbml = dbml)
    (hhash : computeDataHash dbml data = inst.dataHash) :
    getOrCreateSandbox env now st ⟨some k, dbml, data, eng⟩ =
      (.ok { inst with lastAccessed := now },
       { st with sandboxes := setSb k { inst with lastAccessed := now } st.sandboxes }) := by
  unfold getOrCreateSandbox normalizeSessionId
  have hsome : (lookupSb st.sandboxes k).isSome := by rw [hlook]; rfl
  simp only [hk, hsome, ne_eq, not_false_eq_true, true_and, if_true, hlook]
  simp [hlook, hdbml, hhash]

theorem engine_eq_postgres (e : SupportedEngine) : e = SupportedEngine.postgres := by
  cases e
  rfl

theorem getOrCreate_none_eq (env : BuildEnv) (now : Nat) (st : ManagerState)
    (dbml : String) (data : SeedData) (eng : Option SupportedEngine)
    (hfresh : lookupSb st.sandboxes env.freshId = none) :
    getOrCreateSandbox env now st ⟨none, dbml, data, eng⟩ =
      createSandbox env now st env.freshId dbml data (eng.getD .postgres)
        (computeDataHash dbml data) := by
  unfold getOrCreateSandbox normalizeSessionId
  simp [hfresh]

theorem runCalls_reuse (env : BuildEnv) {k dbml : String} (data : SeedData)
    (eng : Option SupportedEngine) (base : SandboxInstance)
    (hk : k ≠ "") (hdbml : base.dbml = dbml)
    (hhash : computeDataHash dbml data = base.dataHash) :
    ∀ (times : List Nat) (st : ManagerState) (la : Nat),
      lookupSb st.sandboxes k = some { base with lastAccessed := la } →
      (∀ r ∈ (runCalls env ⟨some k, dbml, data, eng⟩ times st).1,
        ∃ la2, r = .ok { base with lastAccessed := la2 }) ∧
      (runCalls env ⟨some k, dbml, data, eng⟩ times st).2.liveContainers = st.liveContainers ∧
      (runCalls env ⟨some k, dbml, data, eng⟩ times st).2.nextContainer = st.nextContainer ∧
      (∀ k2, k2 ≠ k →
        lookupSb (runCalls env ⟨some k, dbml, data, eng⟩ times st).2.sandboxes k2 =
          lookupSb st.sandboxes k2) := by
  intro times
  induction times with
  | nil =>
    intro st la hlook
    refine ⟨?_, rfl, rfl, fun k2 _ => rfl⟩
    intro r hr
    simp [runCalls] at hr
  | cons t ts ih =>
    intro st la hlook
    have hstep := getOrCreate_reuse_eq env t st k dbml data eng hk hlook (by simp [hdbml])
      (by simpa using hhash)
    have hrec : ({ base with lastAccessed := la } : SandboxInstance) =
        SandboxInstance.mk base.sessionId base.dbml base.dataHash base.engine
          base.containerId base.hostPort base.createdAt la := rfl
    have hstep2 : getOrCreateSandbox env t st ⟨some k, dbml, data, eng⟩ =
        (.ok { base with lastAccessed := t },
         { st with sandboxes := setSb k { base with lastAccessed := t } st.sandboxes }) := by
      rw [hstep]
    set st2 : ManagerState :=
      { st with sandboxes := setSb k { base with lastAccessed := t } st.sandboxes } with hst2
    have hlook2 : lookupSb st2.sandboxes k = some { base with lastAccessed := t } :=
      lookupSb_setSb_self _ _ _
    obtain ⟨ihres, ihlive, ihnext, ihlook⟩ := ih st2 t hlook2
    have hrun : runCalls env ⟨some k, dbml, data, eng⟩ (t :: ts) st =
        ((Except.ok { base with lastAccessed := t }) ::
          (runCalls env ⟨some k, dbml, data, eng⟩ ts st2).1,
         (runCalls env ⟨some k, dbml, data, eng⟩ ts st2).2) := by
      show (let r := getOrCreateSandbox env t st ⟨some k, dbml, data, eng⟩
            let rest := runCalls env ⟨some k, dbml, data, eng⟩ ts r.2
            (r.1 :: rest.1, rest.2)) = _
      rw [hstep2]
    rw [hrun]
    refine ⟨?_, by simpa using ihlive, by simpa using ihnext, ?_⟩
    · intro r hr
      rcases List.mem_cons.mp hr with rfl | hmem
      · exact ⟨t, rfl⟩
      · exact ihres r hmem
    · intro k2 hk2
      rw [ihlook k2 hk2]
      exact lookupSb_setSb_ne _ _ hk2

/-! ## Garbage-collection fold lemmas -/

theorem mem_lookupSb (m : List (String × SandboxInstance))
    (hkeys : (m.map Prod.fst).Nodup) {k : String} {v : SandboxInstance}
    (hm : (k, v) ∈ m) : lookupSb m k = some v := by
  induction m with
  | nil => simp at hm
  | cons p rest ih =>
    obtain ⟨k0, v0⟩ := p
    rw [List.map_cons, List.nodup_cons] at hkeys
    rcases List.mem_cons.mp hm with he | hmem
    · obtain ⟨rfl, rfl⟩ := Prod.mk.injEq .. ▸ he
      · exact lookupSb_cons_self ..
    · by_cases hk : k0 = k
      · subst hk
        exfalso
        exact hkeys.1 (List.mem_map.mpr ⟨(k0, v), hmem, rfl⟩)
      · rw [lookupSb_cons_ne v0 rest hk]
        exact ih hkeys.2 hmem

theorem deleteSandbox_lookup_none (st : ManagerState) (k' k : String)
    (h : lookupSb st.sandboxes k = none) :
    lookupSb (deleteSandbox st k').sandboxes k = none := by
  by_cases hk : k = k'
  · subst hk
    unfold deleteSandbox
    rw [h]
    exact h
  · rw [deleteSandbox_lookup_ne st hk]
    exact h

theorem deleteSandbox_counters (st : ManagerState) (k : String) :
    (deleteSandbox st k).nextContainer = st.nextContainer ∧
    (deleteSandbox st k).nextPort = st.nextPort ∧
    (deleteSandbox st k).config = st.config := by
  unfold deleteSandbox
  cases lookupSb st.sandboxes k <;> exact ⟨rfl, rfl, rfl⟩

theorem foldl_delete_none_pres :
    ∀ (ks : List String) (st : ManagerState) (k : String),
      lookupSb st.sandboxes k = none →
      lookupSb ((ks.foldl deleteSandbox st).sandboxes) k = none := by
  intro ks
  induction ks with
  | nil => intro st k h; exact h
  | cons k0 ks' ih =>
    intro st k h
    exact ih (deleteSandbox st k0) k (deleteSandbox_lookup_none st k0 k h)

theorem foldl_delete_not_mem :
    ∀ (ks : List String) (st : ManagerState) (k : String), k ∉ ks →
      lookupSb ((ks.foldl deleteSandbox st).sandboxes) k = lookupSb st.sandboxes k := by
  intro ks
  induction ks with
  | nil => intro st k _; rfl
  | cons k0 ks' ih =>
    intro st k hk
    rw [List.mem_cons] at hk
    push_neg at hk
    rw [List.foldl_cons, ih (deleteSandbox st k0) k hk.2]
    exact deleteSandbox_lookup_ne st hk.1

theorem foldl_delete_keys_nodup :
    ∀ (ks : List String) (st : ManagerState),
      (st.sandboxes.map Prod.fst).Nodup →
      (((ks.foldl deleteSandbox st).sandboxes).map Prod.fst).Nodup := by
  intro ks
  induction ks with
  | nil => intro st h; exact h
  | cons k0 ks' ih => intro st h; exact ih _ (deleteSandbox_keys_nodup st k0 h)

theorem foldl_delete_mem :
    ∀ (ks : List String) (st : ManagerState),
      (st.sandboxes.map Prod.fst).Nodup →
      ∀ k ∈ ks, lookupSb ((ks.foldl deleteSandbox st).sandboxes) k = none := by
  intro ks
  induction ks with
  | nil => intro st _ k hk; simp at hk
  | cons k0 ks' ih =>
    intro st hkeys k hk
    rcases List.mem_cons.mp hk with rfl | hmem
    · exact foldl_delete_none_pres ks' (deleteSandbox st k) k
        (deleteSandbox_lookup_self st k hkeys)
    · exact ih (deleteSandbox st k0) (deleteSandbox_keys_nodup st k0 hkeys) k hmem

theorem deleteSandbox_live_iff (st : ManagerState) (k : String)
    (hlive : st.liveContainers.Nodup) (c : Nat) :
    c ∈ (deleteSandbox st k).liveContainers ↔
      c ∈ st.liveContainers ∧
        ∀ r, lookupSb st.sandboxes k = some r → r.containerId ≠ c := by
  unfold deleteSandbox
  cases hl : lookupSb st.sandboxes k with
  | none => simp
  | some r =>
    constructor
    · intro hc
      have h2 := hlive.mem_erase_iff.mp hc
      refine ⟨h2.2, fun r2 hr2 => ?_⟩
      obtain rfl : r = r2 := by injection hr2
      exact fun he => h2.1 he.symm
    · rintro ⟨hc, hr⟩
      exact hlive.mem_erase_iff.mpr ⟨fun he => hr r rfl he.symm, hc⟩

theorem foldl_delete_live_iff :
    ∀ (ks : List String) (st : ManagerState),
      st.liveContainers.Nodup → (st.sandboxes.map Prod.fst).Nodup →
      ∀ c, c ∈ ((ks.foldl deleteSandbox st).liveContainers) ↔
        c ∈ st.liveContainers ∧
          ∀ k ∈ ks, ∀ r, lookupSb st.sandboxes k = some r → r.containerId ≠ c := by
  intro ks
  induction ks with
  | nil =>
    intro st _ _ c
    simp
  | cons k0 ks' ih =>
    intro st hlive hkeys c
    rw [List.foldl_cons]
    rw [ih (deleteSandbox st k0) (deleteSandbox_live_nodup st k0 hlive)
      (deleteSandbox_keys_nodup st k0 hkeys) c]
    rw [deleteSandbox_live_iff st k0 hlive c]
    constructor
    · rintro ⟨⟨hc, hk0⟩, hrest⟩
      refine ⟨hc, ?_⟩
      intro k hk r hr
      rcases List.mem_cons.mp hk with rfl | hmem
      · exact hk0 r hr
      · by_cases hkk : k = k0
        · subst hkk
          exact hk0 r hr
        · exact hrest k hmem r (by rw [deleteSandbox_lookup_ne st hkk]; exact hr)
    · rintro ⟨hc, hall⟩
      refine ⟨⟨hc, fun r hr => hall k0 (List.mem_cons_self ..) r hr⟩, ?_⟩
      intro k hmem r hr
      by_cases hkk : k = k0
      · subst hkk
        rw [deleteSandbox_lookup_self st k hkeys] at hr
        exact absurd hr (by simp)
      · rw [deleteSandbox_lookup_ne st hkk] at hr
        exact hall k (List.mem_cons_of_mem _ hmem) r hr

theorem mem_expiredKeys (st : ManagerState) (now : Nat) {k : String} {r : SandboxInstance}
    (hlook : lookupSb st.sandboxes k = some r)
    (hexp : now - r.lastAccessed > st.config.ttlMs) : k ∈ expiredKeys st now := by
  unfold expiredKeys
  exact List.mem_map.mpr ⟨(k, r), List.mem_filter.mpr ⟨lookupSb_mem _ hlook, by
    simp only [decide_eq_true_eq]
    exact hexp⟩, rfl⟩

theorem not_mem_expiredKeys (st : ManagerState) (now : Nat)
    (hkeys : (st.sandboxes.map Prod.fst).Nodup) {k : String} {r : SandboxInstance}
    (hlook : lookupSb st.sandboxes k = some r)
    (hexp : ¬ now - r.lastAccessed > st.config.ttlMs) : k ∉ expiredKeys st now := by
  unfold expiredKeys
  intro hmem
  obtain ⟨p, hp, hp1⟩ := List.mem_map.mp hmem
  have hpmem := (List.mem_filter.mp hp).1
  have hcond := (List.mem_filter.mp hp).2
  obtain ⟨pk, pv⟩ := p
  subst hp1
  have := mem_lookupSb st.sandboxes hkeys hpmem
  rw [hlook] at this
  obtain rfl : r = pv := by injection this
  simp only [decide_eq_true_eq] at hcond
  exact hexp hcond

theorem lookup_cids_ne (m : List (String × SandboxInstance))
    (hcids : (m.map (fun p => p.2.containerId)).Nodup)
    {k k' : String} {r r' : SandboxInstance}
    (h : lookupSb m k = some r) (h' : lookupSb m k' = some r') (hne : k ≠ k') :
    r.containerId ≠ r'.containerId := by
  intro hcc
  have hm := lookupSb_mem m h
  have hm' := lookupSb_mem m h'
  have h2 := List.inj_on_of_nodup_map hcids hm hm' hcc
  exact hne (congrArg Prod.fst h2)

/-! ## Claim theorems -/

/-- C2: if awaiting readiness or materialization fails inside
`createSandbox` after the container was launched, the partially-built
container is destroyed, the original error is propagated, the registry is
unchanged (no record, hence no fingerprint, is installed under the key),
and no resource handle for that attempt remains live afterward. -/
theorem createSandbox_failure_rollback (env : BuildEnv) (now : Nat) (st : ManagerState)
    (k dbml : String) (data : SeedData) (hash : String)
    (hfail : env.buildOk = false)
    (hfresh : st.nextContainer ∉ st.liveContainers) :
    (createSandbox env now st k dbml data .postgres hash).1 = .error env.failMsg ∧
    (createSandbox env now st k dbml data .postgres hash).2.sandboxes = st.sandboxes ∧
    (createSandbox env now st k dbml data .postgres hash).2.liveContainers = st.liveContainers ∧
    st.nextContainer ∉ (createSandbox env now st k dbml data .postgres hash).2.liveContainers := by
  rw [createSandbox_fail env now st k dbml data hash hfail]
  refine ⟨rfl, rfl, ?_, ?_⟩
  · simp
  · simp [hfresh]

/-- Witness for C2 at a concrete failing build. -/
theorem createSandbox_failure_rollback_witness :
    (createSandbox ⟨"g", false, "boom"⟩ 7 ⟨defaultConfig, [], [], 0, 5000⟩
      "k" "Table t" [] .postgres "h").1 = .error "boom" :=
  (createSandbox_failure_rollback ⟨"g", false, "boom"⟩ 7 ⟨defaultConfig, [], [], 0, 5000⟩
    "k" "Table t" [] "h" rfl (by simp)).1

/-- C5: `executeQuery` on a session key that names no registered record
(never seen, destroyed, expired, or mid-rebuild) fails with the constant
session-not-found error, leaves the state unchanged, never returns a
result, and the error value is the same for every not-found cause, so the
caller cannot distinguish them. -/
theorem executeQuery_unknown_session
    (runQ runQ2 : Nat → String → Except String QueryResult) (now now2 : Nat)
    (st st2 : ManagerState) (k k2 q q2 : String)
    (h : lookupSb st.sandboxes k = none) (h2 : lookupSb st2.sandboxes k2 = none) :
    executeQuery runQ now st k q = (.error sessionNotFoundMsg, st) ∧
    (executeQuery runQ now st k q).1 = (executeQuery runQ2 now2 st2 k2 q2).1 := by
  refine ⟨executeQuery_lookup_none runQ now st k q h, ?_⟩
  rw [executeQuery_lookup_none runQ now st k q h,
    executeQuery_lookup_none runQ2 now2 st2 k2 q2 h2]

/-- Witness for C5 at a concrete unknown key. -/
theorem executeQuery_unknown_session_witness :
    executeQuery (fun _ _ => .error "x") 5 ⟨defaultConfig, [], [], 0, 5000⟩ "k" "SELECT 1" =
      (.error sessionNotFoundMsg, ⟨defaultConfig, [], [], 0, 5000⟩) :=
  (executeQuery_unknown_session (fun _ _ => .error "x") (fun _ _ => .error "x") 5 5
    ⟨defaultConfig, [], [], 0, 5000⟩ ⟨defaultConfig, [], [], 0, 5000⟩
    "k" "k" "SELECT 1" "SELECT 1" rfl rfl).1

/-- C6: a garbage-collection cycle is the fold of `deleteSandbox` (the
explicit-deletion path) over exactly the scanned expired keys; it removes
precisely the records whose idle time exceeds the TTL, destroys their
containers, keeps every other record and container, and an expired key
afterwards behaves as unknown to `executeQuery`. -/
theorem cleanupExpiredSandboxes_exact
    (st : ManagerState) (now : Nat)
    (hkeys : (st.sandboxes.map Prod.fst).Nodup)
    (hlive : st.liveContainers.Nodup)
    (hcids : (st.sandboxes.map (fun p => p.2.containerId)).Nodup) :
    cleanupExpiredSandboxes st now = (expiredKeys st now).foldl deleteSandbox st ∧
    (∀ k r, lookupSb st.sandboxes k = some r →
      lookupSb (cleanupExpiredSandboxes st now).sandboxes k =
        (if now - r.lastAccessed > st.config.ttlMs then none else some r)) ∧
    (∀ k, lookupSb st.sandboxes k = none →
      lookupSb (cleanupExpiredSandboxes st now).sandboxes k = none) ∧
    (∀ k r, lookupSb st.sandboxes k = some r → now - r.lastAccessed > st.config.ttlMs →
      r.containerId ∉ (cleanupExpiredSandboxes st now).liveContainers) ∧
    (∀ k r, lookupSb st.sandboxes k = some r → ¬ now - r.lastAccessed > st.config.ttlMs →
      r.containerId ∈ st.liveContainers →
      r.containerId ∈ (cleanupExpiredSandboxes st now).liveContainers) ∧
    (∀ (runQ : Nat → String → Except String QueryResult) (t2 : Nat) (q : String)
        (k : String) (r : SandboxInstance), lookupSb st.sandboxes k = some r →
      now - r.lastAccessed > st.config.ttlMs →
      (executeQuery runQ t2 (cleanupExpiredSandboxes st now) k q).1 =
        .error sessionNotFoundMsg) := by
  have hlookup : ∀ k r, lookupSb st.sandboxes k = some r →
      lookupSb (cleanupExpiredSandboxes st now).sandboxes k =
        (if now - r.lastAccessed > st.config.ttlMs then none else some r) := by
    intro k r hlook
    by_cases hexp : now - r.lastAccessed > st.config.ttlMs
    · rw [if_pos hexp]
      exact foldl_delete_mem _ st hkeys k (mem_expiredKeys st now hlook hexp)
    · rw [if_neg hexp]
      rw [show cleanupExpiredSandboxes st now = (expiredKeys st now).foldl deleteSandbox st
        from rfl]
      rw [foldl_delete_not_mem _ st k (not_mem_expiredKeys st now hkeys hlook hexp)]
      exact hlook
  refine ⟨rfl, hlookup, ?_, ?_, ?_, ?_⟩
  · intro k hnone
    exact foldl_delete_none_pres _ st k hnone
  · intro k r hlook hexp hmem
    obtain ⟨-, hall⟩ := (foldl_delete_live_iff _ st hlive hkeys _).mp hmem
    exact hall k (mem_expiredKeys st now hlook hexp) r hlook rfl
  · intro k r hlook hnexp hmem
    refine (foldl_delete_live_iff _ st hlive hkeys _).mpr ⟨hmem, ?_⟩
    intro k2 hk2 r2 hr2
    by_cases hkk : k2 = k
    · subst hkk
      rw [hlook] at hr2
      obtain rfl : r = r2 := by injection hr2
      exact absurd hk2 (not_mem_expiredKeys st now hkeys hlook hnexp)
    · exact lookup_cids_ne st.sandboxes hcids hr2 hlook hkk
  · intro runQ t2 q k r hlook hexp
    have hnone : lookupSb (cleanupExpiredSandboxes st now).sandboxes k = none := by
      rw [hlookup k r hlook, if_pos hexp]
    rw [executeQuery_lookup_none runQ t2 _ k q hnone]

/-- Witness for C6: a registry holding one expired and one fresh record;
after the cycle the expired key is gone and the fresh one survives. -/
theorem cleanupExpiredSandboxes_exact_witness :
    lookupSb (cleanupExpiredSandboxes
      ⟨defaultConfig,
        [("a", ⟨"a", "d", "h", .postgres, 1, 5001, 0, 0⟩),
         ("b", ⟨"b", "d", "h", .postgres, 2, 5002, 0, 7000000⟩)],
        [1, 2], 3, 5003⟩ 7200000).sandboxes "a" = none := by
  have h := (cleanupExpiredSandboxes_exact
    ⟨defaultConfig,
      [("a", ⟨"a", "d", "h", .postgres, 1, 5001, 0, 0⟩),
       ("b", ⟨"b", "d", "h", .postgres, 2, 5002, 0, 7000000⟩)],
      [1, 2], 3, 5003⟩ 7200000 (by decide) (by decide) (by decide)).2.1
    "a" ⟨"a", "d", "h", .postgres, 1, 5001, 0, 0⟩ (by decide)
  rw [if_pos (by decide)] at h
  exact h

/-- C3 counterexample: two sequential `getOrCreateSandbox` calls both
presenting the same caller-chosen session key `"k"` (never registered)
with identical schema and data.  Because an unregistered caller-supplied
key is discarded in favour of a freshly generated one, each call
provisions its own container under its own generated key: the second call
does not return the first call's record, and two containers are live. -/
theorem getOrCreateSandbox_same_key_counterexample :
    resContainerId (getOrCreateSandbox ⟨"g1", true, ""⟩ 100
        ⟨defaultConfig, [], [], 0, 5000⟩ ⟨some "k", "Table t", [], none⟩) = some 0 ∧
    resSessionId (getOrCreateSandbox ⟨"g1", true, ""⟩ 100
        ⟨defaultConfig, [], [], 0, 5000⟩ ⟨some "k", "Table t", [], none⟩) = some "g1" ∧
    resContainerId (getOrCreateSandbox ⟨"g2", true, ""⟩ 200
        (getOrCreateSandbox ⟨"g1", true, ""⟩ 100 ⟨defaultConfig, [], [], 0, 5000⟩
          ⟨some "k", "Table t", [], none⟩).2
        ⟨some "k", "Table t", [], none⟩) = some 1 ∧
    resSessionId (getOrCreateSandbox ⟨"g2", true, ""⟩ 200
        (getOrCreateSandbox ⟨"g1", true, ""⟩ 100 ⟨defaultConfig, [], [], 0, 5000⟩
          ⟨some "k", "Table t", [], none⟩).2
        ⟨some "k", "Table t", [], none⟩) = some "g2" ∧
    (getOrCreateSandbox ⟨"g2", true, ""⟩ 200
        (getOrCreateSandbox ⟨"g1", true, ""⟩ 100 ⟨defaultConfig, [], [], 0, 5000⟩
          ⟨some "k", "Table t", [], none⟩).2
        ⟨some "k", "Table t", [], none⟩).2.liveContainers.length = 2 := by
  decide

/-- C3 (amended): for every sequence of `getOrCreateSandbox` calls whose
first call provisions a sandbox (here: under the generated key returned to
the caller) and whose subsequent calls present that returned key with
identical schema description and seed data, only the first call
provisions: every subsequent call returns the same record (same container
id and host port) without creating any new resource, updating only its
`lastAccessed` timestamp.  (The claim as stated fails because a
caller-supplied key that is not registered is replaced by a freshly
generated key, so re-presenting the same unregistered key re-provisions;
see the counterexample.) -/
theorem getOrCreateSandbox_reuse_only_first_provisions
    (env : BuildEnv) (t0 : Nat) (st0 : ManagerState) (dbml : String) (data : SeedData)
    (eng : Option SupportedEngine) (times : List Nat)
    (hok : env.buildOk = true)
    (hfresh : lookupSb st0.sandboxes env.freshId = none)
    (hne : env.freshId ≠ "") :
    ∃ inst,
      (getOrCreateSandbox env t0 st0 ⟨none, dbml, data, eng⟩).1 = .ok inst ∧
      inst.sessionId = env.freshId ∧
      inst.containerId = st0.nextContainer ∧
      inst.hostPort = st0.nextPort ∧
      (∀ r ∈ (runCalls env ⟨some env.freshId, dbml, data, eng⟩ times
          (getOrCreateSandbox env t0 st0 ⟨none, dbml, data, eng⟩).2).1,
        ∃ la, r = .ok { inst with lastAccessed := la }) ∧
      (runCalls env ⟨some env.freshId, dbml, data, eng⟩ times
          (getOrCreateSandbox env t0 st0 ⟨none, dbml, data, eng⟩).2).2.liveContainers =
        (getOrCreateSandbox env t0 st0 ⟨none, dbml, data, eng⟩).2.liveContainers ∧
      (runCalls env ⟨some env.freshId, dbml, data, eng⟩ times
          (getOrCreateSandbox env t0 st0 ⟨none, dbml, data, eng⟩).2).2.nextContainer =
        (getOrCreateSandbox env t0 st0 ⟨none, dbml, data, eng⟩).2.nextContainer := by
  have h1 : getOrCreateSandbox env t0 st0 ⟨none, dbml, data, eng⟩ =
      createSandbox env t0 st0 env.freshId dbml data .postgres
        (computeDataHash dbml data) := by
    rw [getOrCreate_none_eq env t0 st0 dbml data eng hfresh,
      engine_eq_postgres (eng.getD SupportedEngine.postgres)]
  rw [h1, createSandbox_ok env t0 st0 env.freshId dbml data (computeDataHash dbml data) hok]
  refine ⟨⟨env.freshId, dbml, computeDataHash dbml data, .postgres,
    st0.nextContainer, st0.nextPort, t0, t0⟩, rfl, rfl, rfl, rfl, ?_⟩
  have hlook1 : lookupSb (setSb env.freshId
      ⟨env.freshId, dbml, computeDataHash dbml data, .postgres,
        st0.nextContainer, st0.nextPort, t0, t0⟩ st0.sandboxes) env.freshId =
      some ⟨env.freshId, dbml, computeDataHash dbml data, .postgres,
        st0.nextContainer, st0.nextPort, t0, t0⟩ := lookupSb_setSb_self _ _ _
  obtain ⟨hres, hlive, hnext, -⟩ := runCalls_reuse env data eng
    ⟨env.freshId, dbml, computeDataHash dbml data, .postgres,
      st0.nextContainer, st0.nextPort, t0, t0⟩ hne rfl rfl times
    { st0 with
        nextPort := st0.nextPort + 1
        nextContainer := st0.nextContainer + 1
        liveContainers := st0.nextContainer :: st0.liveContainers
        sandboxes := setSb env.freshId
          ⟨env.freshId, dbml, computeDataHash dbml data, .postgres,
            st0.nextContainer, st0.nextPort, t0, t0⟩ st0.sandboxes } t0 hlook1
  exact ⟨hres, hlive, hnext⟩

/-- Witness for C3 (amended): two reuse calls after one provisioning call
allocate no further container. -/
theorem getOrCreateSandbox_reuse_only_first_provisions_witness :
    (runCalls ⟨"g1", true, ""⟩ ⟨some "g1", "Table t", [], none⟩ [2, 3]
        (getOrCreateSandbox ⟨"g1", true, ""⟩ 1 ⟨defaultConfig, [], [], 0, 5000⟩
          ⟨none, "Table t", [], none⟩).2).2.nextContainer =
      (getOrCreateSandbox ⟨"g1", true, ""⟩ 1 ⟨defaultConfig, [], [], 0, 5000⟩
        ⟨none, "Table t", [], none⟩).2.nextContainer := by
  obtain ⟨inst, -, -, -, -, -, -, hnext⟩ :=
    getOrCreateSandbox_reuse_only_first_provisions ⟨"g1", true, ""⟩ 1
      ⟨defaultConfig, [], [], 0, 5000⟩ "Table t" [] none [2, 3] rfl rfl (by decide)
  exact hnext

/-- C4: a rebuild (`replaceSandbox`) first destroys the old resource and
removes its record, and only then creates and installs the new resource
under the same key: right after the deletion step the key is unregistered
and the old container is gone while the new one does not exist yet, at no
state of the rebuild are the old and the new container live together, and
on success the key maps to the new record.  The trace
`replaceTrace = [initial, after-destroy, after-launch, final]` lists the
states the operation passes through in order. -/
theorem replaceSandbox_old_destroyed_before_new
    (env : BuildEnv) (now : Nat) (st : ManagerState) (k dbml : String)
    (data : SeedData) (hash : String) {old : SandboxInstance}
    (hlook : lookupSb st.sandboxes k = some old)
    (hkeys : (st.sandboxes.map Prod.fst).Nodup)
    (hlivend : st.liveContainers.Nodup)
    (hold : old.containerId ∈ st.liveContainers)
    (hfresh : st.nextContainer ∉ st.liveContainers) :
    (replaceTrace env now st k dbml data .postgres hash).getLast? =
      some (replaceSandbox env now st k dbml data .postgres hash).2 ∧
    lookupSb (deleteSandbox st k).sandboxes k = none ∧
    old.containerId ∉ (deleteSandbox st k).liveContainers ∧
    st.nextContainer ∉ (deleteSandbox st k).liveContainers ∧
    (∀ s ∈ replaceTrace env now st k dbml data .postgres hash,
      ¬(old.containerId ∈ s.liveContainers ∧ st.nextContainer ∈ s.liveContainers)) ∧
    (env.buildOk = true →
      lookupSb (replaceSandbox env now st k dbml data .postgres hash).2.sandboxes k =
        some ⟨k, dbml, hash, .postgres, st.nextContainer, st.nextPort, now, now⟩) := by
  have hdel : deleteSandbox st k =
      { st with
          liveContainers := st.liveContainers.erase old.containerId
          sandboxes := removeSb k st.sandboxes } := by
    unfold deleteSandbox
    rw [hlook]
  have hne : old.containerId ≠ st.nextContainer := fun he => hfresh (he ▸ hold)
  have holdnot : old.containerId ∉ st.liveContainers.erase old.containerId :=
    hlivend.not_mem_erase
  have hnextnot : st.nextContainer ∉ st.liveContainers.erase old.containerId :=
    fun hmem => hfresh (List.mem_of_mem_erase hmem)
  refine ⟨rfl, deleteSandbox_lookup_self st k hkeys, ?_, ?_, ?_, ?_⟩
  · rw [hdel]
    exact holdnot
  · rw [hdel]
    exact hnextnot
  · intro s hs
    unfold replaceTrace at hs
    simp only [List.mem_cons, List.mem_singleton] at hs
    have hlive2 : ((launchState (deleteSandbox st k)).2.2).liveContainers =
        st.nextContainer :: st.liveContainers.erase old.containerId := by
      rw [hdel]
      rfl
    rcases hs with rfl | rfl | rfl | rfl | hfalse
    · exact fun ⟨_, hb⟩ => hfresh hb
    · rw [hdel]
      exact fun ⟨ha, _⟩ => holdnot ha
    · rw [hlive2]
      rintro ⟨ha, -⟩
      rcases List.mem_cons.mp ha with he | hmem
      · exact hne he
      · exact holdnot hmem
    · unfold replaceSandbox
      cases hbo : env.buildOk
      · rw [createSandbox_fail env now (deleteSandbox st k) k dbml data hash hbo]
        rintro ⟨ha, -⟩
        rw [hdel] at ha
        simp only [List.erase_cons_head] at ha
        exact holdnot ha
      · rw [createSandbox_ok env now (deleteSandbox st k) k dbml data hash hbo]
        rw [hdel]
        rintro ⟨ha, -⟩
        rcases List.mem_cons.mp ha with he | hmem
        · exact hne he
        · exact holdnot hmem
    · exact absurd hfalse (by simp)
  · intro hbo
    unfold replaceSandbox
    rw [createSandbox_ok env now (deleteSandbox st k) k dbml data hash hbo]
    have hc := deleteSandbox_counters st k
    rw [show (deleteSandbox st k).nextContainer = st.nextContainer from hc.1,
      show (deleteSandbox st k).nextPort = st.nextPort from hc.2.1]
    exact lookupSb_setSb_self _ _ _

/-- Witness for C4 at a concrete one-record registry with drifted content. -/
theorem replaceSandbox_old_destroyed_before_new_witness :
    (0 : Nat) ∉ (deleteSandbox
      ⟨defaultConfig, [("k", ⟨"k", "a", "ha", .postgres, 0, 5000, 0, 0⟩)],
        [0], 1, 5001⟩ "k").liveContainers :=
  (replaceSandbox_old_destroyed_before_new ⟨"g", true, ""⟩ 9
    ⟨defaultConfig, [("k", ⟨"k", "a", "ha", .postgres, 0, 5000, 0, 0⟩)], [0], 1, 5001⟩
    "k" "b" [] "hb" rfl (by decide) (by decide) (by decide) (by decide)).2.2.1

theorem mem_keys_setSb (m : List (String × SandboxInstance)) (k : String)
    (v : SandboxInstance) (k2 : String) :
    k2 ∈ (setSb k v m).map Prod.fst ↔ k2 = k ∨ k2 ∈ m.map Prod.fst := by
  induction m with
  | nil => simp [setSb]
  | cons p rest ih =>
    obtain ⟨k0, v0⟩ := p
    by_cases hk : k0 = k
    · subst hk
      simp [setSb]
    · simp [setSb, hk, ih]
      constructor
      · rintro (h | h)
        · exact Or.inr (Or.inl h)
        · rcases h with h | h
          · exact Or.inl h
          · exact Or.inr (Or.inr h)
      · rintro (h | h | h)
        · exact Or.inr (Or.inl h)
        · exact Or.inl h
        · exact Or.inr (Or.inr h)

theorem setSb_keys_nodup (m : List (String × SandboxInstance)) (k : String)
    (v : SandboxInstance) (h : (m.map Prod.fst).Nodup) :
    ((setSb k v m).map Prod.fst).Nodup := by
  induction m with
  | nil => simp [setSb]
  | cons p rest ih =>
    obtain ⟨k0, v0⟩ := p
    rw [List.map_cons, List.nodup_cons] at h
    by_cases hk : k0 = k
    · subst hk
      rw [show setSb k0 v ((k0, v0) :: rest) = (k0, v) :: rest from by simp [setSb],
        List.map_cons, List.nodup_cons]
      exact ⟨h.1, h.2⟩
    · rw [show setSb k v ((k0, v0) :: rest) = (k0, v0) :: setSb k v rest from by
        simp [setSb, hk], List.map_cons, List.nodup_cons]
      refine ⟨?_, ih h.2⟩
      intro hmem
      rcases (mem_keys_setSb rest k v k0).mp hmem with he | hmem2
      · exact hk he
      · exact h.1 hmem2

/-- C8: a record's `lastAccessed` is updated on every successful reuse and
on every query, and nothing else of the record or registry changes on those
paths (same fingerprint, container id, host port, `createdAt`, other keys
and containers untouched); a rebuild installs a record whose `lastAccessed`
(and `createdAt`) is the completion time, so a garbage-collection cycle run
within the TTL window after the rebuild never reaps the fresh record. -/
theorem lastAccessed_update_frame
    (runQ : Nat → String → Except String QueryResult) (env : BuildEnv)
    (now tq : Nat) (st : ManagerState) (k dbml q : String) (data : SeedData)
    (eng : Option SupportedEngine) {inst : SandboxInstance} (hash : String)
    (hk : k ≠ "") (hlook : lookupSb st.sandboxes k = some inst)
    (hdbml : inst.dbml = dbml) (hhash : computeDataHash dbml data = inst.dataHash)
    (hkeys : (st.sandboxes.map Prod.fst).Nodup)
    (hok : env.buildOk = true) :
    (getOrCreateSandbox env now st ⟨some k, dbml, data, eng⟩).1 =
      .ok { inst with lastAccessed := now } ∧
    lookupSb (getOrCreateSandbox env now st ⟨some k, dbml, data, eng⟩).2.sandboxes k =
      some { inst with lastAccessed := now } ∧
    (getOrCreateSandbox env now st ⟨some k, dbml, data, eng⟩).2.liveContainers =
      st.liveContainers ∧
    (∀ k2, k2 ≠ k →
      lookupSb (getOrCreateSandbox env now st ⟨some k, dbml, data, eng⟩).2.sandboxes k2 =
        lookupSb st.sandboxes k2) ∧
    lookupSb (executeQuery runQ tq st k q).2.sandboxes k =
      some { inst with lastAccessed := tq } ∧
    (executeQuery runQ tq st k q).2.liveContainers = st.liveContainers ∧
    (∀ k2, k2 ≠ k →
      lookupSb (executeQuery runQ tq st k q).2.sandboxes k2 = lookupSb st.sandboxes k2) ∧
    (∀ rec2, (replaceSandbox env now st k dbml data .postgres hash).1 = .ok rec2 →
      rec2.lastAccessed = now ∧ rec2.createdAt = now) ∧
    (∀ t2, t2 - now ≤ st.config.ttlMs →
      lookupSb (cleanupExpiredSandboxes
          (replaceSandbox env now st k dbml data .postgres hash).2 t2).sandboxes k =
        some ⟨k, dbml, hash, .postgres, st.nextContainer, st.nextPort, now, now⟩) := by
  rw [getOrCreate_reuse_eq env now st k dbml data eng hk hlook hdbml hhash,
    executeQuery_lookup_some runQ tq st k q hlook]
  have hcnt := deleteSandbox_counters st k
  have hrepl : replaceSandbox env now st k dbml data .postgres hash =
      (.ok ⟨k, dbml, hash, .postgres, st.nextContainer, st.nextPort, now, now⟩,
       { deleteSandbox st k with
          nextPort := st.nextPort + 1
          nextContainer := st.nextContainer + 1
          liveContainers := st.nextContainer :: (deleteSandbox st k).liveContainers
          sandboxes := setSb k ⟨k, dbml, hash, .postgres, st.nextContainer, st.nextPort, now, now⟩
            (deleteSandbox st k).sandboxes }) := by
    unfold replaceSandbox
    rw [createSandbox_ok env now (deleteSandbox st k) k dbml data hash hok, hcnt.1, hcnt.2.1]
  refine ⟨rfl, lookupSb_setSb_self .., rfl, ?_, lookupSb_setSb_self .., rfl, ?_, ?_, ?_⟩
  · intro k2 hk2
    exact lookupSb_setSb_ne _ _ hk2
  · intro k2 hk2
    exact lookupSb_setSb_ne _ _ hk2
  · intro rec2 hrec2
    rw [hrepl] at hrec2
    simp only at hrec2
    obtain rfl : (⟨k, dbml, hash, .postgres, st.nextContainer, st.nextPort, now, now⟩ :
        SandboxInstance) = rec2 := by injection hrec2
    exact ⟨rfl, rfl⟩
  · intro t2 ht2
    rw [hrepl]
    set stf : ManagerState :=
      { deleteSandbox st k with
          nextPort := st.nextPort + 1
          nextContainer := st.nextContainer + 1
          liveContainers := st.nextContainer :: (deleteSandbox st k).liveContainers
          sandboxes := setSb k ⟨k, dbml, hash, .postgres, st.nextContainer, st.nextPort, now, now⟩
            (deleteSandbox st k).sandboxes } with hstf
    have hlookf : lookupSb stf.sandboxes k =
        some ⟨k, dbml, hash, .postgres, st.nextContainer, st.nextPort, now, now⟩ :=
      lookupSb_setSb_self ..
    have hkeysf : (stf.sandboxes.map Prod.fst).Nodup :=
      setSb_keys_nodup _ _ _ (deleteSandbox_keys_nodup st k hkeys)
    have hconf : stf.config = st.config := hcnt.2.2
    have hnotexp : ¬ t2 - (⟨k, dbml, hash, SupportedEngine.postgres, st.nextContainer,
        st.nextPort, now, now⟩ : SandboxInstance).lastAccessed > stf.config.ttlMs := by
      rw [hconf]
      simp only
      omega
    rw [show cleanupExpiredSandboxes stf t2 = (expiredKeys stf t2).foldl deleteSandbox stf
      from rfl]
    rw [foldl_delete_not_mem _ stf k (not_mem_expiredKeys stf t2 hkeysf hlookf hnotexp)]
    exact hlookf

/-- Witness for C8: concrete reuse call touching only the timestamp. -/
theorem lastAccessed_update_frame_witness :
    (getOrCreateSandbox ⟨"g", true, ""⟩ 5
        ⟨defaultConfig,
          [("k", ⟨"k", "a", computeDataHash "a" [], .postgres, 0, 5000, 0, 0⟩)],
          [0], 1, 5001⟩
        ⟨some "k", "a", [], none⟩).1 =
      .ok ⟨"k", "a", computeDataHash "a" [], .postgres, 0, 5000, 0, 5⟩ :=
  (lastAccessed_update_frame (fun _ _ => .error "e") ⟨"g", true, ""⟩ 5 6
    ⟨defaultConfig,
      [("k", ⟨"k", "a", computeDataHash "a" [], .postgres, 0, 5000, 0, 0⟩)],
      [0], 1, 5001⟩
    "k" "a" "q" [] none "h2" (by decide) rfl rfl rfl (by decide) rfl).1

/-- C1 (violated by the code): an interleaved execution of two concurrent
`getOrCreateSandbox` calls for the same registered key `"k"` (both
presenting drifted content, so both rebuild).  The schedule alternates the
two tasks at the `await` points of the source.  Both tasks decide to
rebuild before either has finished: two independent provisioning
operations run in flight for one key, the two callers receive two distinct
resource handles (containers 1 and 2) both attributed to `"k"`, and
afterwards container 1 is still live (listed by the backend) while no
registry record owns it — an orphaned resource.  This refutes the claimed
per-key serialization; the source has no per-key lock, which the spec
itself flags as a latent defect. -/
theorem concurrent_same_key_two_handles :
    ((runSched 100
        ⟨⟨defaultConfig,
            [("k", ⟨"k", "a", computeDataHash "a" [], .postgres, 0, 5000, 0, 0⟩)],
            [0], 1, 5001⟩,
          ⟨.decide, some "k", "b", [], "fA", "", "", 0, 0, none⟩,
          ⟨.decide, some "k", "b", [], "fB", "", "", 0, 0, none⟩⟩
        [true, false, true, false, true, false, true, false]).taskA.result.map
      (fun i => (i.sessionId, i.containerId))) = some ("k", 1) ∧
    ((runSched 100
        ⟨⟨defaultConfig,
            [("k", ⟨"k", "a", computeDataHash "a" [], .postgres, 0, 5000, 0, 0⟩)],
            [0], 1, 5001⟩,
          ⟨.decide, some "k", "b", [], "fA", "", "", 0, 0, none⟩,
          ⟨.decide, some "k", "b", [], "fB", "", "", 0, 0, none⟩⟩
        [true, false, true, false, true, false, true, false]).taskB.result.map
      (fun i => (i.sessionId, i.containerId))) = some ("k", 2) ∧
    (runSched 100
        ⟨⟨defaultConfig,
            [("k", ⟨"k", "a", computeDataHash "a" [], .postgres, 0, 5000, 0, 0⟩)],
            [0], 1, 5001⟩,
          ⟨.decide, some "k", "b", [], "fA", "", "", 0, 0, none⟩,
          ⟨.decide, some "k", "b", [], "fB", "", "", 0, 0, none⟩⟩
        [true, false, true, false, true, false, true, false]).mgr.liveContainers = [2, 1] ∧
    ((lookupSb (runSched 100
        ⟨⟨defaultConfig,
            [("k", ⟨"k", "a", computeDataHash "a" [], .postgres, 0, 5000, 0, 0⟩)],
            [0], 1, 5001⟩,
          ⟨.decide, some "k", "b", [], "fA", "", "", 0, 0, none⟩,
          ⟨.decide, some "k", "b", [], "fB", "", "", 0, 0, none⟩⟩
        [true, false, true, false, true, false, true, false]).mgr.sandboxes "k").map
      (fun i => i.containerId)) = some 2 ∧
    (∀ p ∈ (runSched 100
        ⟨⟨defaultConfig,
            [("k", ⟨"k", "a", computeDataHash "a" [], .postgres, 0, 5000, 0, 0⟩)],
            [0], 1, 5001⟩,
          ⟨.decide, some "k", "b", [], "fA", "", "", 0, 0, none⟩,
          ⟨.decide, some "k", "b", [], "fB", "", "", 0, 0, none⟩⟩
        [true, false, true, false, true, false, true, false]).mgr.sandboxes,
      p.2.containerId ≠ 1) := by
  decide

theorem rowGet_eq_none (r : Row) (c : String) (h : c ∉ r.map Prod.fst) :
    rowGet r c = none := by
  induction r with
  | nil => rfl
  | cons p rest ih =>
    obtain ⟨k0, v0⟩ := p
    rw [List.map_cons, List.mem_cons] at h
    push_neg at h
    have hne : k0 ≠ c := fun he => h.1 he.symm
    rw [show rowGet ((k0, v0) :: rest) c = rowGet rest c from by simp [rowGet, hne]]
    exact ih h.2

/-- C9 counterexample: the table `"t"` has one row, but because that first
row has no keys the seeding loop skips the table entirely — no insert is
planned for it, so it is not true that every row of a table with at least
one row is inserted. -/
theorem buildInserts_empty_first_row_counterexample :
    buildInserts [("t", [[]])] = [] ∧
    ([("t", [[]])] : SeedData).length = 1 ∧
    (([[]] : List Row)).length = 1 := by
  decide

/-- C9 (amended): for every table with at least one row whose first row
has at least one key, the insert column list is exactly the key list of
the first row, every row of the table is inserted by looking up exactly
those columns, a column missing from a row yields `none` (sent as SQL
NULL), and a key appearing only in later rows is never part of the column
list. -/
theorem buildInserts_columns_from_first_row
    (data : SeedData) (t : String) (rows : List Row) (r0 : Row) (rest : List Row)
    (hmem : (t, rows) ∈ data) (hrows : rows = r0 :: rest) (hne : r0 ≠ []) :
    ∃ plan ∈ buildInserts data,
      plan.table = t ∧
      plan.columns = r0.map Prod.fst ∧
      plan.rows = rows.map (fun r => (r0.map Prod.fst).map (fun c => rowGet r c)) ∧
      plan.rows.length = rows.length ∧
      (∀ r ∈ rows, ∀ c ∈ plan.columns, c ∉ r.map Prod.fst → rowGet r c = none) ∧
      (∀ c2, c2 ∉ r0.map Prod.fst → c2 ∉ plan.columns) := by
  subst hrows
  have hcols : r0.map Prod.fst ≠ [] := by
    intro he
    exact hne (List.map_eq_nil_iff.mp he)
  refine ⟨⟨t, r0.map Prod.fst,
    (r0 :: rest).map (fun r => (r0.map Prod.fst).map (fun c => rowGet r c))⟩,
    ?_, rfl, rfl, rfl, by simp, ?_, ?_⟩
  · refine List.mem_filterMap.mpr ⟨(t, r0 :: rest), hmem, ?_⟩
    simp only [buildInserts]
    rw [if_neg hcols]
  · intro r _ c _ hc
    exact rowGet_eq_none r c hc
  · intro c2 hc2 hmem2
    exact hc2 hmem2

/-- Witness for C9 (amended): a second row lacking the first row's key is
still inserted, with a `none` value in that column. -/
theorem buildInserts_columns_from_first_row_witness :
    buildInserts [("t", [[("a", JsLit.str "x")], []])] ≠ [] := by
  obtain ⟨plan, hplan, -⟩ :=
    buildInserts_columns_from_first_row [("t", [[("a", JsLit.str "x")], []])]
      "t" [[("a", JsLit.str "x")], []] [("a", JsLit.str "x")] [[]]
      (by simp) rfl (by simp)
  intro he
  rw [he] at hplan
  simp at hplan

theorem dropWhile_all_iff (l : List Char) :
    (∀ c ∈ l.dropWhile isJsWhitespace, isJsWhitespace c = true) ↔
      (∀ c ∈ l, isJsWhitespace c = true) := by
  induction l with
  | nil => simp
  | cons c cs ih =>
    by_cases hc : isJsWhitespace c
    · simp [List.dropWhile_cons, hc, ih]
    · simp [List.dropWhile_cons, hc]

theorem jsTrim_empty_iff (q : String) :
    (jsTrim q).data = [] ↔ ∀ c ∈ q.data, isJsWhitespace c = true := by
  show ((q.data.dropWhile isJsWhitespace).reverse.dropWhile isJsWhitespace).reverse = [] ↔ _
  rw [List.reverse_eq_nil_iff, List.dropWhile_eq_nil_iff]
  constructor
  · intro h
    refine (dropWhile_all_iff q.data).mp ?_
    intro c hc
    exact h c (List.mem_reverse.mpr hc)
  · intro h c hc
    exact ((dropWhile_all_iff q.data).mpr h) c (List.mem_reverse.mp hc)

/-- C10: the container-sandbox path's `validateQuery` accepts a query
exactly when it contains at least one non-whitespace character and rejects
exactly the empty or all-whitespace queries (with the constant error);
in particular no statement-kind restriction exists, so any SQL text with a
non-whitespace character — DDL and DML included — passes validation. -/
theorem validateQuery_boundary (q : String) :
    ((validateQuery q).1 = true ↔ ∃ c ∈ q.data, isJsWhitespace c = false) ∧
    ((validateQuery q).1 = false ↔ ∀ c ∈ q.data, isJsWhitespace c = true) ∧
    (validateQuery q).2 =
      (if (validateQuery q).1 then none else some "Query cannot be empty") := by
  by_cases hcond : q = "" ∨ (jsTrim q).data.length = 0
  · have hval : validateQuery q = (false, some "Query cannot be empty") := by
      unfold validateQuery
      rw [if_pos hcond]
    have hall : ∀ c ∈ q.data, isJsWhitespace c = true := by
      rcases hcond with rfl | hlen
      · intro c hc
        simp at hc
      · exact (jsTrim_empty_iff q).mp (List.length_eq_zero.mp hlen)
    rw [hval]
    refine ⟨?_, ?_, rfl⟩
    · simp only [Bool.false_eq_true, false_iff]
      rintro ⟨c, hc, hf⟩
      rw [hall c hc] at hf
      exact Bool.true_eq_false.mp hf
    · simp only [eq_self_iff_true, true_iff]
      exact hall
  · push_neg at hcond
    have hval : validateQuery q = (true, none) := by
      unfold validateQuery
      rw [if_neg (by push_neg; exact hcond)]
    have hnotall : ¬ ∀ c ∈ q.data, isJsWhitespace c = true := by
      intro hall
      exact hcond.2 (by rw [List.length_eq_zero, jsTrim_empty_iff q]; exact hall)
    rw [hval]
    refine ⟨?_, ?_, rfl⟩
    · simp only [eq_self_iff_true, true_iff]
      push_neg at hnotall
      obtain ⟨c, hc, hf⟩ := hnotall
      exact ⟨c, hc, by simpa using hf⟩
    · simp only [Bool.true_eq_false, false_iff]
      exact hnotall
